import Mathlib

/-!
# gx::Optional (src/optional/optional.h)

A shallow embedding of the `gx::Optional<T>` container and proofs of its
contract.

## Modelling conventions

* An `Optional<T>` object is its two data members: the raw buffer `data_` and the
  flag `is_initialized_`.  The buffer is modelled by `Option T`: `none` is a
  buffer holding no live `T` (uninitialised bytes, or a `T` whose destructor has
  run), `some v` is a buffer holding a live `T` of value `v`.
* Objects live at addresses (`Addr`), so that the test `this != &rhs` of the
  assignment operators is an address comparison, as in the source.
* The held type enters only through its special member functions (`HeldOps`):
  the container calls them, it never looks inside a `T`.  A constructor of `T`
  may throw; an assignment may throw and leaves its target in some state.
* Every completed construction, assignment and destruction of a `T` is appended
  to a log, together with the address of the `Optional` whose buffer it acted on.
* The arguments of `Emplace` are references (`ArgRefs`): they are read when
  `T(args...)` runs, after `Reset()`, and may refer to the value held by an
  `Optional`, the one `Emplace` is called on included.
* A member function is a state transformer that also yields an outcome: a
  result, or a `Fault`.  A C++ exception does not roll the state back, so the
  state after a fault is part of the result.
-/

namespace gx

/-- Address of an `Optional` object. -/
abbrev Addr := Nat

/-- The object representation of `Optional<T>`: lines 149-152 of optional.h. -/
structure Optional (T : Type) where
  /-- The buffer `alignas(T) char data_[sizeof(T)]`: `some v` iff a live `T` of value `v` is in the buffer -/
  data_ : Option T
  /-- The flag `bool is_initialized_ = false` -/
  is_initialized_ : Bool
deriving DecidableEq, Repr

/-- Lifecycle operations of the held type that the container invokes. -/
inductive TEvent where
  /-- Placement `new (data_) T(const T&)` -/
  | copyConstruct
  /-- Placement `new (data_) T(T&&)` -/
  | moveConstruct
  /-- Placement `new (data_) T(args...)` -/
  | argsConstruct
  /-- Copy assignment `T::operator=(const T&)` on the contained object -/
  | copyAssign
  /-- Move assignment `T::operator=(T&&)` on the contained object -/
  | moveAssign
  /-- Destructor `~T()` on the contained object -/
  | destroy
deriving DecidableEq, Repr

/-- Is the event a construction of a `T`. -/
def TEvent.isConstruct : TEvent → Bool
  | .copyConstruct | .moveConstruct | .argsConstruct => true
  | _ => false

/-- Is the event an assignment of a `T`. -/
def TEvent.isAssign : TEvent → Bool
  | .copyAssign | .moveAssign => true
  | _ => false

/-- Is the event a destruction of a `T`. -/
def TEvent.isDestroy : TEvent → Bool
  | .destroy => true
  | _ => false

/-- Ways in which a member function does not return normally. -/
inductive Fault where
  /-- The exception of `throw BadOptionalAccess()` -/
  | BadOptionalAccess
  /-- An exception thrown by a member function of the held type `T` -/
  | heldThrew
  /-- The buffer is used as a `T` while it holds no live `T` (undefined behaviour) -/
  | noLiveObject
deriving DecidableEq, Repr

/-- The message of `BadOptionalAccess::what()` (lines 11-13). -/
def BadOptionalAccess.what : String := "Bad optional access"

/-- The special member functions of the held type `T`, as seen by the container.
`Args` is the type of the argument lists accepted by `T(args...)`. -/
structure HeldOps (T Args : Type) where
  /-- Copy constructor `T(const T&)`: the constructed value, or `none` when the constructor throws -/
  copyConstruct : T → Option T
  /-- Move constructor `T(T&&)`: the constructed value (`none` when it throws) and the state the source is left in -/
  moveConstruct : T → Option T × T
  /-- Constructor `T(args...)`: the constructed value, or `none` when the constructor throws -/
  construct : Args → Option T
  /-- Copy assignment `target = source`: whether the assignment completed, and the state of the target after it -/
  copyAssign : T → T → Bool × T
  /-- Move assignment `target = std::move(source)`: whether it completed, the target after it, the source after it -/
  moveAssign : T → T → Bool × T × T

/-- The held type has value semantics: its constructors and assignments complete
and give the new or assigned object the value of their source. -/
structure HeldOps.ValueSemantics {T Args : Type} (ops : HeldOps T Args) : Prop where
  copyConstruct_eq : ∀ v, ops.copyConstruct v = some v
  moveConstruct_eq : ∀ v, (ops.moveConstruct v).1 = some v
  copyAssign_eq : ∀ t s, ops.copyAssign t s = (true, s)
  moveAssign_eq : ∀ t s, (ops.moveAssign t s).1 = true ∧ (ops.moveAssign t s).2.1 = s

/-- The program state: the `Optional` objects in memory and the log of the
lifecycle operations performed on held values (oldest first). -/
structure World (T : Type) where
  objs : Addr → Optional T
  log : List (Addr × TEvent)

/-- A member function: from the state before to an outcome and the state after. -/
def Exec (T α : Type) : Type := World T → Except Fault α × World T

/-- Normal return. -/
def Exec.ret {T α : Type} (a : α) : Exec T α := fun w => (.ok a, w)

/-- Sequencing: a fault in the first part skips the second and keeps the state reached. -/
def Exec.seq {T α β : Type} (m : Exec T α) (f : α → Exec T β) : Exec T β := fun w =>
  match m w with
  | (.ok a, w1) => f a w1
  | (.error e, w1) => (.error e, w1)

instance {T : Type} : Monad (Exec T) where
  pure := Exec.ret
  bind := Exec.seq

/-- The outcome of running `m` from `w`: its result, or the fault it ended with. -/
def Exec.outcome {T α : Type} (m : Exec T α) (w : World T) : Except Fault α := (m w).1

/-- The state in which running `m` from `w` ends. -/
def Exec.after {T α : Type} (m : Exec T α) (w : World T) : World T := (m w).2

/-- Leave the function with a fault (`throw`, or undefined behaviour). -/
def raise {T α : Type} (e : Fault) : Exec T α := fun w => (.error e, w)

/-- Replace the object at `p`. -/
def World.store {T : Type} (w : World T) (p : Addr) (o : Optional T) : World T :=
  { w with objs := fun q => if q = p then o else w.objs q }

/-- Read the member `is_initialized_` of the object at `this`. -/
def get_is_initialized {T : Type} (this : Addr) : Exec T Bool := fun w =>
  (.ok (w.objs this).is_initialized_, w)

/-- Write the member `is_initialized_` of the object at `this`. -/
def set_is_initialized {T : Type} (this : Addr) (b : Bool) : Exec T Unit := fun w =>
  (.ok (), w.store this { w.objs this with is_initialized_ := b })

/-- Start of every constructor: the members are initialised, `data_` to
indeterminate bytes (no live `T`) and `is_initialized_` to `false` (line 151). -/
def init_members {T : Type} (this : Addr) : Exec T Unit := fun w =>
  (.ok (), w.store this { data_ := none, is_initialized_ := false })

/-- Placement new, `new (data_) T(...)`, given the outcome `r` of the constructor
of `T`.  A constructor that throws leaves no live object in the buffer. -/
def placement_new {T : Type} (this : Addr) (r : Option T) (ev : TEvent) : Exec T Unit := fun w =>
  match r with
  | some v =>
    (.ok (), { (w.store this { w.objs this with data_ := some v }) with
                log := w.log ++ [(this, ev)] })
  | none => (.error .heldThrew, w.store this { w.objs this with data_ := none })

/-- The value of the `T` that a reference `reinterpret_cast<T&>(data_)` designates;
using the reference while the buffer holds no live `T` is undefined. -/
def load {T : Type} (this : Addr) : Exec T T := fun w =>
  match (w.objs this).data_ with
  | some v => (.ok v, w)
  | none => (.error .noLiveObject, w)

/-- Overwrite the value of the live `T` in the buffer (the effect of a member of
`T` on the object it is called on, or on its moved-from argument). -/
def put {T : Type} (this : Addr) (v : T) : Exec T Unit := fun w =>
  (.ok (), w.store this { w.objs this with data_ := some v })

/-- Append an event to the log. -/
def record {T : Type} (this : Addr) (ev : TEvent) : Exec T Unit := fun w =>
  (.ok (), { w with log := w.log ++ [(this, ev)] })

/-- The explicit destructor call `reinterpret_cast<T*>(data_)->~T()` (line 137). -/
def destroy_at {T : Type} (this : Addr) : Exec T Unit := fun w =>
  match (w.objs this).data_ with
  | some _ =>
    (.ok (), { (w.store this { w.objs this with data_ := none }) with
                log := w.log ++ [(this, .destroy)] })
  | none => (.error .noLiveObject, w)

/-- Operator `T& operator*() &` (lines 94-96): a reference to the buffer as a `T`, no
presence check.  The model yields the value the reference designates. -/
def deref {T : Type} (this : Addr) : Exec T T := load this

/-- Operator `T&& operator*() &&` (lines 97-99). -/
def deref_rvalue {T : Type} (this : Addr) : Exec T T := load this

/-- Operator `const T& operator*() const&` (lines 100-102). -/
def deref_const {T : Type} (this : Addr) : Exec T T := load this

/-- Operators `T* operator->()` and `const T* operator->() const` (lines 104-109): a pointer
to the buffer of the object, no presence check. -/
def arrow {T : Type} (this : Addr) : Exec T Addr := pure this

/-- Member `bool HasValue() const` (lines 90-92). -/
def HasValue {T : Type} (this : Addr) : Exec T Bool := get_is_initialized this

/-- Member `T& Value() &` (lines 111-117). -/
def Value {T : Type} (this : Addr) : Exec T T := do
  if !(← get_is_initialized this) then
    raise .BadOptionalAccess
  load this

/-- Member `const T& Value() const&` (lines 119-125). -/
def Value_const {T : Type} (this : Addr) : Exec T T := do
  if !(← HasValue this) then
    raise .BadOptionalAccess
  load this

/-- Member `T&& Value() &&` (lines 127-133). -/
def Value_rvalue {T : Type} (this : Addr) : Exec T T := do
  if !(← get_is_initialized this) then
    raise .BadOptionalAccess
  load this

/-- Member `void Reset()` (lines 135-140). -/
def Reset {T : Type} (this : Addr) : Exec T Unit := do
  if (← get_is_initialized this) then
    destroy_at this
    set_is_initialized this false

/-- The arguments of `Emplace(Args&&... args)`.  They are references, bound when
the call is made and read only when `T(args...)` runs.  They refer either to
objects outside every `Optional` buffer, whose values are `args`, or to the `T`
held in the buffer of the `Optional` at `p` (as in `o.Emplace(*o)`), from which
the argument list is obtained by `view`. -/
inductive ArgRefs (T Args : Type) where
  | objects (args : Args)
  | contained (p : Addr) (view : T → Args)

/-- Reading the objects that the argument references designate. -/
def ArgRefs.read {T Args : Type} : ArgRefs T Args → Exec T Args
  | .objects args => pure args
  | .contained p view => do
    let v ← load p
    pure (view v)

/-- Whether the arguments refer to the value held by the `Optional` at `this`. -/
def ArgRefs.refersInto {T Args : Type} (this : Addr) : ArgRefs T Args → Bool
  | .objects _ => false
  | .contained p _ => decide (p = this)

/-- Member `void Emplace(Args&&... args)` (lines 142-147): `Reset()` runs first, then
`T(args...)` reads its arguments through the references. -/
def Emplace {T Args : Type} (ops : HeldOps T Args) (this : Addr) (args : ArgRefs T Args) :
    Exec T Unit := do
  Reset this
  let a ← args.read
  placement_new this (ops.construct a) .argsConstruct
  set_is_initialized this true

/-- Destructor `~Optional()` (lines 86-88). -/
def Optional_dtor {T : Type} (this : Addr) : Exec T Unit := Reset this

/-- The statement `**this = value` for a `const T&` right-hand side: `operator*`
on `*this`, then `T::operator=(const T&)` on the contained object. -/
def assign_contained {T Args : Type} (ops : HeldOps T Args) (this : Addr) (value : T) :
    Exec T Unit := do
  let target ← deref this
  let r := ops.copyAssign target value
  put this r.2
  if r.1 then record this .copyAssign else raise .heldThrew

/-- The statement `**this = std::move(value)`: `operator*` on `*this`, then
`T::operator=(T&&)` on the contained object.  Yields the state the source is left in. -/
def move_assign_contained {T Args : Type} (ops : HeldOps T Args) (this : Addr) (value : T) :
    Exec T T := do
  let target ← deref this
  let r := ops.moveAssign target value
  put this r.2.1
  if r.1 then record this .moveAssign else raise .heldThrew
  return r.2.2

/-- Constructor `Optional() = default` (line 19). -/
def Optional_default {T : Type} (this : Addr) : Exec T Unit :=
  init_members this

/-- Constructor `Optional(const T& value)` (lines 20-23). -/
def Optional_from_value {T Args : Type} (ops : HeldOps T Args) (this : Addr) (value : T) :
    Exec T Unit := do
  init_members this
  placement_new this (ops.copyConstruct value) .copyConstruct
  set_is_initialized this true

/-- Constructor `Optional(T&& value)` (lines 24-27).  Yields the state the argument is left in. -/
def Optional_from_rvalue {T Args : Type} (ops : HeldOps T Args) (this : Addr) (value : T) :
    Exec T T := do
  init_members this
  let r := ops.moveConstruct value
  placement_new this r.1 .moveConstruct
  set_is_initialized this true
  return r.2

/-- Constructor `Optional(const Optional& other)` (lines 28-33). -/
def Optional_copy {T Args : Type} (ops : HeldOps T Args) (this other : Addr) : Exec T Unit := do
  init_members this
  if (← get_is_initialized other) then
    let src ← deref_const other
    placement_new this (ops.copyConstruct src) .copyConstruct
    set_is_initialized this true

/-- Constructor `Optional(Optional&& other)` (lines 34-39). -/
def Optional_move {T Args : Type} (ops : HeldOps T Args) (this other : Addr) : Exec T Unit := do
  init_members this
  if (← get_is_initialized other) then
    let src ← deref other
    let r := ops.moveConstruct src
    put other r.2
    placement_new this r.1 .moveConstruct
    set_is_initialized this true

/-- Operator `Optional& operator=(const T& value)` (lines 41-49); the result is `*this`. -/
def assign_value {T Args : Type} (ops : HeldOps T Args) (this : Addr) (value : T) :
    Exec T Addr := do
  if (← get_is_initialized this) then
    assign_contained ops this value
  else
    placement_new this (ops.copyConstruct value) .copyConstruct
    set_is_initialized this true
  return this

/-- Operator `Optional& operator=(T&& rhs)` (lines 50-58); the result is `*this`, paired
with the state the argument is left in. -/
def assign_rvalue {T Args : Type} (ops : HeldOps T Args) (this : Addr) (rhs : T) :
    Exec T (Addr × T) := do
  if (← get_is_initialized this) then
    let left ← move_assign_contained ops this rhs
    return (this, left)
  else
    let r := ops.moveConstruct rhs
    placement_new this r.1 .moveConstruct
    set_is_initialized this true
    return (this, r.2)

/-- Operator `Optional& operator=(const Optional& rhs)` (lines 59-71); the result is `*this`. -/
def assign_copy {T Args : Type} (ops : HeldOps T Args) (this rhs : Addr) : Exec T Addr := do
  if this ≠ rhs then
    let mine ← get_is_initialized this
    let theirs ← get_is_initialized rhs
    if mine && theirs then
      let src ← deref_const rhs
      assign_contained ops this src
    else if mine && !theirs then
      Reset this
    else if !mine && theirs then
      let src ← deref_const rhs
      placement_new this (ops.copyConstruct src) .copyConstruct
      set_is_initialized this true
  return this

/-- Operator `Optional& operator=(Optional&& rhs)` (lines 72-84); the result is `*this`. -/
def assign_move {T Args : Type} (ops : HeldOps T Args) (this rhs : Addr) : Exec T Addr := do
  if this ≠ rhs then
    let mine ← get_is_initialized this
    let theirs ← get_is_initialized rhs
    if mine && theirs then
      let src ← deref rhs
      let target ← deref this
      let r := ops.moveAssign target src
      put this r.2.1
      put rhs r.2.2
      if r.1 then record this .moveAssign else raise .heldThrew
    else if mine && !theirs then
      Reset this
    else if !mine && theirs then
      let src ← deref rhs
      let r := ops.moveConstruct src
      put rhs r.2
      placement_new this r.1 .moveConstruct
      set_is_initialized this true
  return this

/-- The presence flag agrees with the buffer: a live `T` is in `data_` exactly
when `is_initialized_` is set. -/
def Optional.WF {T : Type} (o : Optional T) : Prop :=
  o.is_initialized_ = o.data_.isSome

instance {T : Type} [DecidableEq T] (o : Optional T) : Decidable o.WF :=
  inferInstanceAs (Decidable (o.is_initialized_ = o.data_.isSome))

/-- The held type `int`: every operation completes, a move leaves the source as it was. -/
def intOps : HeldOps Int Int where
  copyConstruct v := some v
  moveConstruct v := (some v, v)
  construct a := some a
  copyAssign _ s := (true, s)
  moveAssign _ s := (true, s, s)

/-- A string-like held type: a move leaves the source empty. -/
def stringOps : HeldOps String String where
  copyConstruct v := some v
  moveConstruct v := (some v, "")
  construct a := some a
  copyAssign _ s := (true, s)
  moveAssign _ s := (true, s, "")

/-- A world in which every object is empty and nothing has happened. -/
def World.empty (T : Type) : World T where
  objs := fun _ => { data_ := none, is_initialized_ := false }
  log := []

/-- Two `Optional<int>` objects: a present one holding 42 at address 0 and an
empty one at address 1 (built by the constructors). -/
def World.sample : World Int :=
  (Optional_default 1).after ((Optional_from_value intOps 0 42).after (World.empty Int))

/-- The function `int main()` of src/main.cpp: `opt` lives at address 0; the result is the
text written to `std::cout` (without the trailing `std::endl`). -/
def main : Exec Int String := do
  let _ ← Optional_from_rvalue intOps 0 42
  if !(← HasValue 0) then
    return "Optional is empty"
  else
    let v ← deref 0
    return "Optional has value: " ++ toString v

/-- Caller code `f(*o)` for the object `o` at `this`: the held value is changed in
place, to `f` of its old value, through the reference that `operator*` returns. -/
def mutate_through_deref {T : Type} (this : Addr) (f : T → T) : Exec T Unit := do
  let v ← deref this
  put this (f v)

/-- Caller code `f(o.Value())` for the object `o` at `this`: the held value is
changed in place through the reference that the checked accessor returns. -/
def mutate_through_Value {T : Type} (this : Addr) (f : T → T) : Exec T Unit := do
  let v ← Value this
  put this (f v)

/-- Number of constructions of a `T` in the buffer of the object at `p` that the log records. -/
def constructions (p : Addr) (log : List (Addr × TEvent)) : Nat :=
  log.countP (fun e => decide (e.1 = p) && e.2.isConstruct)

/-- Number of destructions of a `T` in the buffer of the object at `p` that the log records. -/
def destructions (p : Addr) (log : List (Addr × TEvent)) : Nat :=
  log.countP (fun e => decide (e.1 = p) && e.2.isDestroy)

/-- Running `m` leaves the object at `q` as it was and adds to the log no
construction and no destruction in the buffer of `q`. -/
def Exec.Quiet {T α : Type} (q : Addr) (m : Exec T α) : Prop :=
  ∀ w, (m w).2.objs q = w.objs q ∧
    constructions q (m w).2.log = constructions q w.log ∧
    destructions q (m w).2.log = destructions q w.log

/-- Running `m` never ends with the fault `e`. -/
def Exec.Avoids {T α : Type} (e : Fault) (m : Exec T α) : Prop :=
  ∀ w, (m w).1 ≠ .error e

/-- The storage invariant at one object: the flag agrees with the buffer, and the
constructions logged for the buffer exceed the destructions by one if the flag is
set and by none if it is clear. -/
def World.BalancedAt {T : Type} (w : World T) (p : Addr) : Prop :=
  (w.objs p).WF ∧
    constructions p w.log = destructions p w.log + (if (w.objs p).is_initialized_ then 1 else 0)

/-- The storage invariant holds at every object. -/
def World.Balanced {T : Type} (w : World T) : Prop := ∀ p, w.BalancedAt p

/-- Run `m` for its effect only. -/
def Exec.discard {T α : Type} (m : Exec T α) : Exec T Unit := fun w =>
  (match (m w).1 with
    | .ok _ => .ok ()
    | .error e => .error e, (m w).2)

/-- A call of a constructor, of a public member function, or a change of the held
value by the caller through a reference obtained from an accessor. -/
inductive Op (T Args : Type) where
  | ctor_default (this : Addr)
  | ctor_value (this : Addr) (v : T)
  | ctor_rvalue (this : Addr) (v : T)
  | ctor_copy (this other : Addr)
  | ctor_move (this other : Addr)
  | assign_value (this : Addr) (v : T)
  | assign_rvalue (this : Addr) (v : T)
  | assign_copy (this rhs : Addr)
  | assign_move (this rhs : Addr)
  | reset (this : Addr)
  | emplace (this : Addr) (args : ArgRefs T Args)
  | dtor (this : Addr)
  | has_value (this : Addr)
  | value (this : Addr)
  | value_const (this : Addr)
  | value_rvalue (this : Addr)
  | deref (this : Addr)
  | deref_const (this : Addr)
  | deref_rvalue (this : Addr)
  | arrow (this : Addr)
  | mutate_deref (this : Addr) (f : T → T)
  | mutate_value (this : Addr) (f : T → T)

/-- The member function that a call stands for. -/
def Op.run {T Args : Type} (ops : HeldOps T Args) : Op T Args → Exec T Unit
  | .ctor_default this => Optional_default this
  | .ctor_value this v => Optional_from_value ops this v
  | .ctor_rvalue this v => (Optional_from_rvalue ops this v).discard
  | .ctor_copy this other => Optional_copy ops this other
  | .ctor_move this other => Optional_move ops this other
  | .assign_value this v => (gx.assign_value ops this v).discard
  | .assign_rvalue this v => (gx.assign_rvalue ops this v).discard
  | .assign_copy this rhs => (gx.assign_copy ops this rhs).discard
  | .assign_move this rhs => (gx.assign_move ops this rhs).discard
  | .reset this => Reset this
  | .emplace this args => Emplace ops this args
  | .dtor this => Optional_dtor this
  | .has_value this => (HasValue this).discard
  | .value this => (Value this).discard
  | .value_const this => (Value_const this).discard
  | .value_rvalue this => (Value_rvalue this).discard
  | .deref this => (gx.deref this).discard
  | .deref_const this => (gx.deref_const this).discard
  | .deref_rvalue this => (gx.deref_rvalue this).discard
  | .arrow this => (gx.arrow this).discard
  | .mutate_deref this f => mutate_through_deref this f
  | .mutate_value this f => mutate_through_Value this f

/-- Whether a call may be made at all: a constructor runs on storage in which no
present `Optional` lives (fresh storage, or an object that is empty or destroyed).
Every member function may be called in any state. -/
def Op.permitted {T Args : Type} (w : World T) : Op T Args → Bool
  | .ctor_default this | .ctor_value this _ | .ctor_rvalue this _ | .ctor_copy this _
  | .ctor_move this _ => !(w.objs this).is_initialized_
  | _ => true

/-- Whether a call uses the reference returned by the unchecked `operator*` of an
empty `Optional`, directly or as an argument of `Emplace`.  That reference
designates no `T`: using it is outside the contract of the class and is not an
act of the container. -/
def Op.uncheckedOnEmpty {T Args : Type} (w : World T) : Op T Args → Bool
  | .deref this | .deref_const this | .deref_rvalue this | .mutate_deref this _ =>
    !(w.objs this).is_initialized_
  | .emplace _ (.contained p _) => !(w.objs p).is_initialized_
  | _ => false

/-- Whether a call is `o.Emplace(args...)` with arguments that refer to the value
held by `o` itself. -/
def Op.emplaceFromOwnValue {T Args : Type} : Op T Args → Bool
  | .emplace this args => args.refersInto this
  | _ => false

/-- The states reachable from empty memory by permitted calls.  The state after a
call that ended with an exception is reachable too. -/
inductive Reachable {T Args : Type} (ops : HeldOps T Args) : World T → Prop
  | start : Reachable ops (World.empty T)
  | step {w : World T} (c : Op T Args) :
      Reachable ops w → c.permitted w = true → Reachable ops ((c.run ops).after w)

variable {T Args α β : Type}

/-! ## Running the primitives -/

@[simp] theorem run_pure (a : α) (w : World T) : (pure a : Exec T α) w = (.ok a, w) := rfl

@[simp] theorem run_bind (m : Exec T α) (f : α → Exec T β) (w : World T) :
    (m >>= f) w = match m w with
      | (.ok a, w1) => f a w1
      | (.error e, w1) => (.error e, w1) := rfl

@[simp] theorem run_raise (e : Fault) (w : World T) :
    (raise e : Exec T α) w = (.error e, w) := rfl

@[simp] theorem run_get_is_initialized (this : Addr) (w : World T) :
    get_is_initialized this w = (.ok (w.objs this).is_initialized_, w) := rfl

@[simp] theorem run_set_is_initialized (this : Addr) (b : Bool) (w : World T) :
    set_is_initialized this b w =
      (.ok (), w.store this { w.objs this with is_initialized_ := b }) := rfl

@[simp] theorem run_init_members (this : Addr) (w : World T) :
    init_members this w = (.ok (), w.store this { data_ := none, is_initialized_ := false }) := rfl

@[simp] theorem run_placement_new_some (this : Addr) (v : T) (ev : TEvent) (w : World T) :
    placement_new this (some v) ev w =
      (.ok (), { (w.store this { w.objs this with data_ := some v }) with
                  log := w.log ++ [(this, ev)] }) := rfl

@[simp] theorem run_placement_new_none (this : Addr) (ev : TEvent) (w : World T) :
    placement_new this none ev w =
      (.error .heldThrew, w.store this { w.objs this with data_ := none }) := rfl

theorem run_load (this : Addr) (w : World T) :
    load this w = match (w.objs this).data_ with
      | some v => (.ok v, w)
      | none => (.error .noLiveObject, w) := rfl

@[simp] theorem run_put (this : Addr) (v : T) (w : World T) :
    put this v w = (.ok (), w.store this { w.objs this with data_ := some v }) := rfl

@[simp] theorem run_record (this : Addr) (ev : TEvent) (w : World T) :
    record this ev w = (.ok (), { w with log := w.log ++ [(this, ev)] }) := rfl

theorem run_destroy_at (this : Addr) (w : World T) :
    destroy_at this w = match (w.objs this).data_ with
      | some _ => (.ok (), { (w.store this { w.objs this with data_ := none }) with
                              log := w.log ++ [(this, .destroy)] })
      | none => (.error .noLiveObject, w) := rfl

@[simp] theorem store_objs_same (w : World T) (p : Addr) (o : Optional T) :
    (w.store p o).objs p = o := by simp [World.store]

@[simp] theorem store_objs_other (w : World T) (p q : Addr) (o : Optional T) (h : q ≠ p) :
    (w.store p o).objs q = w.objs q := by simp [World.store, h]

@[simp] theorem store_log (w : World T) (p : Addr) (o : Optional T) :
    (w.store p o).log = w.log := rfl

/-- Storing back the object already at `p` changes nothing. -/
theorem store_self (w : World T) (p : Addr) : w.store p (w.objs p) = w := by
  cases w with
  | mk objs log =>
    simp only [World.store, World.mk.injEq, and_true]
    funext q
    by_cases h : q = p <;> simp [h]

theorem intOps_valueSemantics : intOps.ValueSemantics :=
  ⟨fun _ => rfl, fun _ => rfl, fun _ _ => rfl, fun _ _ => ⟨rfl, rfl⟩⟩

theorem stringOps_valueSemantics : stringOps.ValueSemantics :=
  ⟨fun _ => rfl, fun _ => rfl, fun _ _ => rfl, fun _ _ => ⟨rfl, rfl⟩⟩

/-- The demonstration program prints that the `Optional` built from 42 has the value 42. -/
theorem main_prints : main.outcome (World.empty Int) = .ok "Optional has value: 42" := rfl

/-! ## Construction and checked access -/

/-- C1: an `Optional` constructed from a value `v`, by `Optional(const T&)` or by
`Optional(T&&)`, reports `HasValue() == true`, and both the checked accessor
`Value()` and the unchecked `operator*` succeed and yield `v`. -/
theorem C1_construct_from_value (ops : HeldOps T Args) (hT : ops.ValueSemantics)
    (w : World T) (this : Addr) (v : T) :
    ((Optional_from_value ops this v).outcome w = .ok () ∧
      (HasValue this).outcome ((Optional_from_value ops this v).after w) = .ok true ∧
      (Value this).outcome ((Optional_from_value ops this v).after w) = .ok v ∧
      (deref this).outcome ((Optional_from_value ops this v).after w) = .ok v) ∧
    ((Optional_from_rvalue ops this v).outcome w = .ok (ops.moveConstruct v).2 ∧
      (HasValue this).outcome ((Optional_from_rvalue ops this v).after w) = .ok true ∧
      (Value this).outcome ((Optional_from_rvalue ops this v).after w) = .ok v ∧
      (deref this).outcome ((Optional_from_rvalue ops this v).after w) = .ok v) := by
  have hc := hT.copyConstruct_eq v
  have hm := hT.moveConstruct_eq v
  simp [Exec.outcome, Exec.after, Optional_from_value, Optional_from_rvalue, HasValue, Value,
    deref, run_load, hc, hm]

/-- Witness of C1 for `Optional<int>` built from 42. -/
theorem C1_construct_from_value_witness :
    (Value 0).outcome ((Optional_from_value intOps 0 42).after (World.empty Int)) = .ok 42 ∧
    (Value 0).outcome ((Optional_from_rvalue intOps 0 42).after (World.empty Int)) = .ok 42 :=
  have h := C1_construct_from_value intOps intOps_valueSemantics (World.empty Int) 0 42
  ⟨h.1.2.2.1, h.2.2.2.1⟩

/-- C2: a default-constructed `Optional` is empty: `HasValue()` is false and each
overload of the checked accessor `Value()` throws `BadOptionalAccess`. -/
theorem C2_default_is_empty (w : World T) (this : Addr) :
    (Optional_default this).outcome w = .ok () ∧
    (HasValue this).outcome ((Optional_default this).after w) = .ok false ∧
    (Value this).outcome ((Optional_default this).after w) = .error .BadOptionalAccess ∧
    (Value_const this).outcome ((Optional_default this).after w) = .error .BadOptionalAccess ∧
    (Value_rvalue this).outcome ((Optional_default this).after w) = .error .BadOptionalAccess := by
  simp [Exec.outcome, Exec.after, Optional_default, HasValue, Value, Value_const, Value_rvalue]

/-- C3: for each overload of `Value()`: it throws `BadOptionalAccess` exactly when
`HasValue()` is false; when `HasValue()` is true it yields what the matching
`operator*` yields, which is the contained value; and, thrown or not, it leaves
the whole state (flag, contained value, log) as it was. -/
theorem C3_value_checked (w : World T) (this : Addr) :
    (((Value this).outcome w = .error .BadOptionalAccess ↔ (HasValue this).outcome w = .ok false) ∧
      ((HasValue this).outcome w = .ok true → (Value this).outcome w = (deref this).outcome w) ∧
      (∀ v, (w.objs this).data_ = some v → (HasValue this).outcome w = .ok true →
        (Value this).outcome w = .ok v) ∧
      (Value this).after w = w) ∧
    (((Value_const this).outcome w = .error .BadOptionalAccess ↔
        (HasValue this).outcome w = .ok false) ∧
      ((HasValue this).outcome w = .ok true →
        (Value_const this).outcome w = (deref_const this).outcome w) ∧
      (∀ v, (w.objs this).data_ = some v → (HasValue this).outcome w = .ok true →
        (Value_const this).outcome w = .ok v) ∧
      (Value_const this).after w = w) ∧
    (((Value_rvalue this).outcome w = .error .BadOptionalAccess ↔
        (HasValue this).outcome w = .ok false) ∧
      ((HasValue this).outcome w = .ok true →
        (Value_rvalue this).outcome w = (deref_rvalue this).outcome w) ∧
      (∀ v, (w.objs this).data_ = some v → (HasValue this).outcome w = .ok true →
        (Value_rvalue this).outcome w = .ok v) ∧
      (Value_rvalue this).after w = w) := by
  simp only [Exec.outcome, Exec.after, HasValue, Value, Value_const, Value_rvalue, deref,
    deref_const, deref_rvalue, run_bind, run_get_is_initialized]
  cases h : (w.objs this).is_initialized_ <;> cases h2 : (w.objs this).data_ <;>
    simp [run_load, h2]

/-- Witness of C3: on the present `Optional<int>` of the sample state `Value()`
yields 42, on the empty one it throws, as `HasValue()` tells. -/
theorem C3_value_checked_witness :
    (Value 0).outcome World.sample = .ok 42 ∧
    (Value_const 1).outcome World.sample = .error .BadOptionalAccess :=
  ⟨(C3_value_checked World.sample 0).1.2.2.1 42 rfl rfl,
    (C3_value_checked World.sample 1).2.1.1.mpr rfl⟩

/-! ## Assignment -/

/-- C4: copy assignment `a = b` between two distinct, well-formed `Optional`s, in
all four presence combinations: it returns `*this`; afterwards `a.HasValue()`
equals `b.HasValue()`; if `b` holds `v` then `a` holds `v` (through `Value()` and
through `operator*`); `b` is unchanged.  In particular a present `b` makes an
empty `a` present and an empty `b` makes a present `a` empty. -/
theorem C4_copy_assign (ops : HeldOps T Args) (hT : ops.ValueSemantics) (w : World T)
    (a b : Addr) (hab : a ≠ b) (ha : (w.objs a).WF) (hb : (w.objs b).WF) :
    (assign_copy ops a b).outcome w = .ok a ∧
    (HasValue a).outcome ((assign_copy ops a b).after w) = (HasValue b).outcome w ∧
    (HasValue b).outcome ((assign_copy ops a b).after w) = (HasValue b).outcome w ∧
    (∀ v, (Value b).outcome w = .ok v →
      (Value a).outcome ((assign_copy ops a b).after w) = .ok v ∧
      (deref a).outcome ((assign_copy ops a b).after w) = .ok v) ∧
    ((assign_copy ops a b).after w).objs b = w.objs b ∧
    ((HasValue a).outcome w = .ok false → (HasValue b).outcome w = .ok true →
      (HasValue a).outcome ((assign_copy ops a b).after w) = .ok true) ∧
    ((HasValue a).outcome w = .ok true → (HasValue b).outcome w = .ok false →
      (HasValue a).outcome ((assign_copy ops a b).after w) = .ok false) := by
  have hba : b ≠ a := fun h => hab h.symm
  have hc := hT.copyConstruct_eq
  have hs := hT.copyAssign_eq
  rcases hoa : w.objs a with ⟨da, fa⟩
  rcases hob : w.objs b with ⟨db, fb⟩
  simp only [Optional.WF, hoa, hob] at ha hb
  cases da <;> cases db <;> simp at ha hb <;> subst ha <;> subst hb <;>
    simp [Exec.outcome, Exec.after, assign_copy, assign_contained, Reset, HasValue, Value, deref,
      deref_const, run_load, run_destroy_at, hab, hba, hoa, hob, hc, hs]

/-- Witness of C4 on two `Optional<int>`: `a` at address 1 is empty, `b` at
address 0 holds 42; after `a = b` the checked accessor of `a` yields 42. -/
theorem C4_copy_assign_witness :
    (0 : Addr) ≠ 1 ∧ (World.sample.objs 1).WF ∧ (World.sample.objs 0).WF ∧
    (Value 1).outcome ((assign_copy intOps 1 0).after World.sample) = .ok 42 :=
  ⟨by decide, by decide, by decide,
    ((C4_copy_assign intOps intOps_valueSemantics World.sample 1 0 (by decide) (by decide)
      (by decide)).2.2.2.1 42 rfl).1⟩

/-- C5: value assignment `a = v`, in the copy form `operator=(const T&)` and the
move form `operator=(T&&)`, on a well-formed `Optional`: it returns `*this`,
afterwards `HasValue()` is true and the contained value is `v`.  If `a` was
present the only lifecycle operation performed is one assignment of `T` on the
object in the buffer of `a`; if `a` was empty it is one construction of a `T` in
that buffer. -/
theorem C5_value_assign (ops : HeldOps T Args) (hT : ops.ValueSemantics) (w : World T)
    (a : Addr) (v : T) (ha : (w.objs a).WF) :
    ((assign_value ops a v).outcome w = .ok a ∧
      (HasValue a).outcome ((assign_value ops a v).after w) = .ok true ∧
      (Value a).outcome ((assign_value ops a v).after w) = .ok v ∧
      ((HasValue a).outcome w = .ok true →
        ((assign_value ops a v).after w).log = w.log ++ [(a, .copyAssign)]) ∧
      ((HasValue a).outcome w = .ok false →
        ((assign_value ops a v).after w).log = w.log ++ [(a, .copyConstruct)])) ∧
    ((∃ left, (assign_rvalue ops a v).outcome w = .ok (a, left)) ∧
      (HasValue a).outcome ((assign_rvalue ops a v).after w) = .ok true ∧
      (Value a).outcome ((assign_rvalue ops a v).after w) = .ok v ∧
      ((HasValue a).outcome w = .ok true →
        ((assign_rvalue ops a v).after w).log = w.log ++ [(a, .moveAssign)]) ∧
      ((HasValue a).outcome w = .ok false →
        ((assign_rvalue ops a v).after w).log = w.log ++ [(a, .moveConstruct)])) := by
  have hc := hT.copyConstruct_eq
  have hs := hT.copyAssign_eq
  have hm := hT.moveConstruct_eq v
  rcases hoa : w.objs a with ⟨da, fa⟩
  simp only [Optional.WF, hoa] at ha
  cases da <;> simp at ha <;> subst ha
  · simp [Exec.outcome, Exec.after, assign_value, assign_rvalue, HasValue, Value, run_load,
      hoa, hc, hm]
  · rename_i t
    have hma := hT.moveAssign_eq t v
    simp [Exec.outcome, Exec.after, assign_value, assign_rvalue, assign_contained,
      move_assign_contained, HasValue, Value, deref, run_load, hoa, hs, hma.1, hma.2]

/-- Witness of C5: the scenario `Optional<int> a(42); a.Reset(); a = 7;` and the
assignment `a = 7` on the still present `a`. -/
theorem C5_value_assign_witness :
    (World.sample.objs 0).WF ∧ (((Reset 0).after World.sample).objs 0).WF ∧
    (Value 0).outcome ((assign_value intOps 0 7).after ((Reset 0).after World.sample)) = .ok 7 ∧
    (Value 0).outcome ((assign_rvalue intOps 0 7).after World.sample) = .ok 7 :=
  ⟨by decide, by decide,
    (C5_value_assign intOps intOps_valueSemantics ((Reset 0).after World.sample) 0 7
      (by decide)).1.2.2.1,
    (C5_value_assign intOps intOps_valueSemantics World.sample 0 7 (by decide)).2.2.2.1⟩

/-! ## Emplace and Reset -/

/-- When the arguments of `Emplace` do not refer to the value held by the object
itself and designate live objects of values `args`, the call behaves as with
arguments outside every buffer. -/
theorem emplace_resolved (ops : HeldOps T Args) (w : World T) (a : Addr) (r : ArgRefs T Args)
    (args : Args) (hown : r.refersInto a = false) (hread : r.read.outcome w = .ok args) :
    Emplace ops a r w = Emplace ops a (.objects args) w := by
  cases r with
  | objects x =>
    have hx : x = args := by simpa [Exec.outcome, ArgRefs.read] using hread
    rw [hx]
  | contained p view =>
    have hp : p ≠ a := by simpa [ArgRefs.refersInto] using hown
    rcases hop : w.objs p with ⟨dp, fp⟩
    cases dp with
    | none => simp [Exec.outcome, ArgRefs.read, run_load, hop] at hread
    | some u =>
      have hu : view u = args := by simpa [Exec.outcome, ArgRefs.read, run_load, hop] using hread
      rcases hoa : w.objs a with ⟨_ | x, _ | _⟩ <;>
        simp [Emplace, Reset, ArgRefs.read, run_load, run_destroy_at, hoa, hop, hp, hu]

/-- C6 (amended): round trip of `Emplace` for arguments that do not refer to the
value held by the `Optional` itself.  On a well-formed `Optional` in any state,
empty or present with any value, when the argument references designate live
objects of values `args` and `T(args...)` yields `v`, then `Emplace(args...)`
returns, afterwards `HasValue()` is true and `Value()` yields `v`. -/
theorem C6_emplace_roundtrip (ops : HeldOps T Args) (w : World T) (a : Addr)
    (r : ArgRefs T Args) (args : Args) (v : T) (hown : r.refersInto a = false)
    (hread : r.read.outcome w = .ok args) (hv : ops.construct args = some v)
    (ha : (w.objs a).WF) :
    (Emplace ops a r).outcome w = .ok () ∧
    (HasValue a).outcome ((Emplace ops a r).after w) = .ok true ∧
    (Value a).outcome ((Emplace ops a r).after w) = .ok v ∧
    ((Emplace ops a r).after w).objs a = { data_ := some v, is_initialized_ := true } := by
  have he := emplace_resolved ops w a r args hown hread
  rcases hoa : w.objs a with ⟨da, fa⟩
  simp only [Optional.WF, hoa] at ha
  simp only [Exec.outcome, Exec.after, he]
  cases da <;> simp at ha <;> subst ha <;>
    simp [Exec.outcome, Exec.after, Emplace, ArgRefs.read, Reset, HasValue, Value, run_load,
      run_destroy_at, hoa, hv]

/-- Witness of C6: `Emplace(7)` on the `Optional<int>` holding 42. -/
theorem C6_emplace_roundtrip_witness :
    (ArgRefs.objects 7 : ArgRefs Int Int).refersInto 0 = false ∧
    intOps.construct 7 = some 7 ∧ (World.sample.objs 0).WF ∧
    (Value 0).outcome ((Emplace intOps 0 (.objects 7)).after World.sample) = .ok 7 :=
  ⟨rfl, rfl, by decide,
    (C6_emplace_roundtrip intOps World.sample 0 (.objects 7) 7 7 rfl rfl rfl (by decide)).2.2.1⟩

/-- Counterexample to C6 as stated: `a.Emplace(*a)` on the `Optional<std::string>`
holding "x".  The argument refers to the held value, which `Reset()` destroys
before `T(args...)` reads it.  The call therefore does not return with a value
built from its argument: it reads a buffer that holds no live `T`, which is
undefined behaviour, although `T(args...)` on the value the argument had when the
call was made would have yielded "x". -/
theorem C6_emplace_own_value_counterexample :
    (ArgRefs.contained 0 id : ArgRefs String String).read.outcome
      ((Optional_from_value stringOps 0 "x").after (World.empty String)) = .ok "x" ∧
    stringOps.construct "x" = some "x" ∧
    (((Optional_from_value stringOps 0 "x").after (World.empty String)).objs 0).WF ∧
    (Emplace stringOps 0 (.contained 0 id)).outcome
      ((Optional_from_value stringOps 0 "x").after (World.empty String)) ≠ .ok () ∧
    (Emplace stringOps 0 (.contained 0 id)).outcome
      ((Optional_from_value stringOps 0 "x").after (World.empty String)) =
        .error .noLiveObject := by
  refine ⟨rfl, rfl, by decide, ?_, rfl⟩
  intro h
  cases h

/-- C8: `Reset` is idempotent.  On a well-formed `Optional`, `Reset()` returns and
leaves `HasValue()` false; a second `Reset()` returns and leaves the state reached
by the first one unchanged.  Over the two calls the log grows by one destruction
if the `Optional` was present at first, and not at all if it was empty. -/
theorem C8_reset_idempotent (w : World T) (a : Addr) (ha : (w.objs a).WF) :
    (Reset a).outcome w = .ok () ∧
    (HasValue a).outcome ((Reset a).after w) = .ok false ∧
    (Reset a).outcome ((Reset a).after w) = .ok () ∧
    (Reset a).after ((Reset a).after w) = (Reset a).after w ∧
    ((HasValue a).outcome w = .ok true →
      ((Reset a).after ((Reset a).after w)).log = w.log ++ [(a, .destroy)]) ∧
    ((HasValue a).outcome w = .ok false →
      ((Reset a).after ((Reset a).after w)).log = w.log) := by
  rcases hoa : w.objs a with ⟨da, fa⟩
  simp only [Optional.WF, hoa] at ha
  cases da <;> simp at ha <;> subst ha <;>
    simp [Exec.outcome, Exec.after, Reset, HasValue, run_destroy_at, hoa]

/-- Witness of C8: two calls of `Reset` on the present `Optional<int>` of the
sample state destroy its value once. -/
theorem C8_reset_idempotent_witness :
    (World.sample.objs 0).WF ∧
    ((Reset 0).after ((Reset 0).after World.sample)).log = [(0, .copyConstruct), (0, .destroy)] :=
  ⟨by decide, (C8_reset_idempotent World.sample 0 (by decide)).2.2.2.2.1 rfl⟩

/-- C9: self-assignment is a no-op.  Copy assignment and move assignment of the
`Optional` at `a` to itself return `*this` and leave the whole state as it was:
the flag, the contained value, and the log (no construction, assignment or
destruction of a `T`). -/
theorem C9_self_assign (ops : HeldOps T Args) (w : World T) (a : Addr) :
    assign_copy ops a a w = (.ok a, w) ∧ assign_move ops a a w = (.ok a, w) := by
  simp [assign_copy, assign_move]

/-- C10: the four-case matrix of `operator=(const Optional&)` and
`operator=(Optional&&)` between distinct, well-formed `Optional`s, read off the
log.  Both present: the log grows by exactly one assignment of `T` on the value
of `this`.  This present, other empty: by exactly one destruction of the value of
`this`, and `this` becomes empty.  This empty, other present: by exactly one
construction in the buffer of `this`, and `this` becomes present.  Both empty:
the state, log included, is unchanged. -/
theorem C10_assign_matrix (ops : HeldOps T Args) (hT : ops.ValueSemantics) (w : World T)
    (a b : Addr) (hab : a ≠ b) (ha : (w.objs a).WF) (hb : (w.objs b).WF) :
    (((w.objs a).is_initialized_ = true → (w.objs b).is_initialized_ = true →
        ((assign_copy ops a b).after w).log = w.log ++ [(a, .copyAssign)] ∧
        (((assign_copy ops a b).after w).objs a).is_initialized_ = true) ∧
      ((w.objs a).is_initialized_ = true → (w.objs b).is_initialized_ = false →
        ((assign_copy ops a b).after w).log = w.log ++ [(a, .destroy)] ∧
        (((assign_copy ops a b).after w).objs a).is_initialized_ = false) ∧
      ((w.objs a).is_initialized_ = false → (w.objs b).is_initialized_ = true →
        ((assign_copy ops a b).after w).log = w.log ++ [(a, .copyConstruct)] ∧
        (((assign_copy ops a b).after w).objs a).is_initialized_ = true) ∧
      ((w.objs a).is_initialized_ = false → (w.objs b).is_initialized_ = false →
        (assign_copy ops a b).after w = w) ∧
      (assign_copy ops a b).outcome w = .ok a) ∧
    (((w.objs a).is_initialized_ = true → (w.objs b).is_initialized_ = true →
        ((assign_move ops a b).after w).log = w.log ++ [(a, .moveAssign)] ∧
        (((assign_move ops a b).after w).objs a).is_initialized_ = true) ∧
      ((w.objs a).is_initialized_ = true → (w.objs b).is_initialized_ = false →
        ((assign_move ops a b).after w).log = w.log ++ [(a, .destroy)] ∧
        (((assign_move ops a b).after w).objs a).is_initialized_ = false) ∧
      ((w.objs a).is_initialized_ = false → (w.objs b).is_initialized_ = true →
        ((assign_move ops a b).after w).log = w.log ++ [(a, .moveConstruct)] ∧
        (((assign_move ops a b).after w).objs a).is_initialized_ = true) ∧
      ((w.objs a).is_initialized_ = false → (w.objs b).is_initialized_ = false →
        (assign_move ops a b).after w = w) ∧
      (assign_move ops a b).outcome w = .ok a) := by
  have hba : b ≠ a := fun h => hab h.symm
  have hc := hT.copyConstruct_eq
  have hs := hT.copyAssign_eq
  have hm := hT.moveConstruct_eq
  have hma := fun t s => (hT.moveAssign_eq t s).1
  rcases hoa : w.objs a with ⟨da, fa⟩
  rcases hob : w.objs b with ⟨db, fb⟩
  simp only [Optional.WF, hoa, hob] at ha hb
  cases da <;> cases db <;> simp at ha hb <;> subst ha <;> subst hb <;>
    simp [Exec.outcome, Exec.after, assign_copy, assign_move, assign_contained, Reset, deref,
      deref_const, run_load, run_destroy_at, hab, hba, hoa, hob, hc, hs, hm, hma]

/-- Witness of C10: in the sample state the `Optional<int>` at address 1 is empty
and the one at address 0 is present; `a = std::move(b)` with `a` at 1 and `b` at 0
performs one move construction at address 1. -/
theorem C10_assign_matrix_witness :
    (1 : Addr) ≠ 0 ∧ (World.sample.objs 1).WF ∧ (World.sample.objs 0).WF ∧
    ((assign_move intOps 1 0).after World.sample).log =
      [(0, .copyConstruct), (1, .moveConstruct)] :=
  ⟨by decide, by decide, by decide,
    ((C10_assign_matrix intOps intOps_valueSemantics World.sample 1 0 (by decide) (by decide)
      (by decide)).2.2.2.1 rfl rfl).1⟩

/-! ## Frame lemmas: a member function changes only the objects it is called on -/

theorem quiet_pure (q : Addr) (a : α) : (pure a : Exec T α).Quiet q :=
  fun _ => ⟨rfl, rfl, rfl⟩

theorem quiet_raise (q : Addr) (e : Fault) : (raise e : Exec T α).Quiet q :=
  fun _ => ⟨rfl, rfl, rfl⟩

theorem quiet_bind {q : Addr} {m : Exec T α} {f : α → Exec T β} (hm : m.Quiet q)
    (hf : ∀ a, (f a).Quiet q) : (m >>= f).Quiet q := by
  intro w
  have h1 := hm w
  rw [run_bind]
  rcases hmw : m w with ⟨r, w1⟩
  rw [hmw] at h1
  cases r with
  | error e => exact h1
  | ok a =>
    have h2 := hf a w1
    exact ⟨h2.1.trans h1.1, h2.2.1.trans h1.2.1, h2.2.2.trans h1.2.2⟩

theorem quiet_get_is_initialized (q this : Addr) :
    (get_is_initialized this : Exec T Bool).Quiet q :=
  fun _ => ⟨rfl, rfl, rfl⟩

theorem quiet_load (q this : Addr) : (load this : Exec T T).Quiet q := by
  intro w
  rw [run_load]
  split <;> exact ⟨rfl, rfl, rfl⟩

theorem quiet_set_is_initialized {q this : Addr} (h : q ≠ this) (b : Bool) :
    (set_is_initialized this b : Exec T Unit).Quiet q :=
  fun w => ⟨by simp [h], rfl, rfl⟩

theorem quiet_init_members {q this : Addr} (h : q ≠ this) :
    (init_members this : Exec T Unit).Quiet q :=
  fun w => ⟨by simp [h], rfl, rfl⟩

theorem quiet_put {q this : Addr} (h : q ≠ this) (v : T) : (put this v : Exec T Unit).Quiet q :=
  fun w => ⟨by simp [h], rfl, rfl⟩

theorem quiet_record {q this : Addr} (h : q ≠ this) (ev : TEvent) :
    (record this ev : Exec T Unit).Quiet q :=
  fun w => ⟨rfl, by simp [constructions, h, Ne.symm h], by simp [destructions, h, Ne.symm h]⟩

theorem quiet_placement_new {q this : Addr} (h : q ≠ this) (r : Option T) (ev : TEvent) :
    (placement_new this r ev : Exec T Unit).Quiet q := by
  intro w
  cases r with
  | none => exact ⟨by simp [h], rfl, rfl⟩
  | some v =>
    exact ⟨by simp [h], by simp [constructions, h, Ne.symm h],
      by simp [destructions, h, Ne.symm h]⟩

theorem quiet_destroy_at {q this : Addr} (h : q ≠ this) :
    (destroy_at this : Exec T Unit).Quiet q := by
  intro w
  rw [run_destroy_at]
  split
  · exact ⟨by simp [h], by simp [constructions, h, Ne.symm h],
      by simp [destructions, h, Ne.symm h]⟩
  · exact ⟨rfl, rfl, rfl⟩

theorem quiet_Reset {q this : Addr} (h : q ≠ this) : (Reset this : Exec T Unit).Quiet q := by
  unfold Reset
  refine quiet_bind (quiet_get_is_initialized _ _) fun b => ?_
  split
  · exact quiet_bind (quiet_destroy_at h) fun _ => quiet_set_is_initialized h _
  · exact quiet_pure _ _

theorem quiet_Value (q this : Addr) :
    (Value this : Exec T T).Quiet q := by
  unfold Value
  repeat' (first
    | exact quiet_pure _ _
    | exact quiet_raise _ _
    | exact quiet_get_is_initialized _ _
    | exact quiet_load _ _
    | refine quiet_bind ?_ fun _ => ?_
    | split)

theorem quiet_read (q : Addr) (r : ArgRefs T Args) : r.read.Quiet q := by
  cases r with
  | objects x => exact quiet_pure _ _
  | contained p view => exact quiet_bind (quiet_load _ _) fun _ => quiet_pure _ _

theorem quiet_Emplace (ops : HeldOps T Args) {q this : Addr} (args : ArgRefs T Args)
    (h : q ≠ this) : (Emplace ops this args).Quiet q := by
  unfold Emplace
  repeat' (first
    | exact quiet_set_is_initialized h _
    | exact quiet_placement_new h _ _
    | exact quiet_Reset h
    | exact quiet_read _ _
    | refine quiet_bind ?_ fun _ => ?_)

theorem quiet_assign_contained (ops : HeldOps T Args) {q this : Addr} (v : T) (h : q ≠ this) :
    (assign_contained ops this v).Quiet q := by
  unfold assign_contained
  repeat' (first
    | exact quiet_raise _ _
    | exact quiet_load _ _
    | exact quiet_put h _
    | exact quiet_record h _
    | refine quiet_bind ?_ fun _ => ?_
    | split)

theorem quiet_move_assign_contained (ops : HeldOps T Args) {q this : Addr} (v : T) (h : q ≠ this) :
    (move_assign_contained ops this v).Quiet q := by
  unfold move_assign_contained
  repeat' (first
    | exact quiet_pure _ _
    | exact quiet_raise _ _
    | exact quiet_load _ _
    | exact quiet_put h _
    | exact quiet_record h _
    | refine quiet_bind ?_ fun _ => ?_
    | split)

theorem quiet_mutate_through_deref {q this : Addr} (f : T → T) (h : q ≠ this) :
    (mutate_through_deref this f).Quiet q := by
  unfold mutate_through_deref
  repeat' (first
    | exact quiet_load _ _
    | exact quiet_put h _
    | refine quiet_bind ?_ fun _ => ?_)

theorem quiet_mutate_through_Value {q this : Addr} (f : T → T) (h : q ≠ this) :
    (mutate_through_Value this f).Quiet q := by
  unfold mutate_through_Value
  repeat' (first
    | exact quiet_put h _
    | exact quiet_Value _ _
    | refine quiet_bind ?_ fun _ => ?_)

theorem quiet_Optional_from_value (ops : HeldOps T Args) {q this : Addr} (v : T) (h : q ≠ this) :
    (Optional_from_value ops this v).Quiet q := by
  unfold Optional_from_value
  repeat' (first
    | exact quiet_set_is_initialized h _
    | exact quiet_init_members h
    | exact quiet_placement_new h _ _
    | refine quiet_bind ?_ fun _ => ?_)

theorem quiet_Optional_from_rvalue (ops : HeldOps T Args) {q this : Addr} (v : T) (h : q ≠ this) :
    (Optional_from_rvalue ops this v).Quiet q := by
  unfold Optional_from_rvalue
  repeat' (first
    | exact quiet_pure _ _
    | exact quiet_set_is_initialized h _
    | exact quiet_init_members h
    | exact quiet_placement_new h _ _
    | refine quiet_bind ?_ fun _ => ?_)

theorem quiet_Optional_copy (ops : HeldOps T Args) {q this : Addr} (other : Addr) (h : q ≠ this) :
    (Optional_copy ops this other).Quiet q := by
  unfold Optional_copy
  repeat' (first
    | exact quiet_pure _ _
    | exact quiet_get_is_initialized _ _
    | exact quiet_load _ _
    | exact quiet_set_is_initialized h _
    | exact quiet_init_members h
    | exact quiet_placement_new h _ _
    | refine quiet_bind ?_ fun _ => ?_
    | split)

theorem quiet_assign_value (ops : HeldOps T Args) {q this : Addr} (v : T) (h : q ≠ this) :
    (assign_value ops this v).Quiet q := by
  unfold assign_value
  repeat' (first
    | exact quiet_pure _ _
    | exact quiet_get_is_initialized _ _
    | exact quiet_set_is_initialized h _
    | exact quiet_placement_new h _ _
    | exact quiet_assign_contained ops _ h
    | refine quiet_bind ?_ fun _ => ?_
    | split)

theorem quiet_assign_rvalue (ops : HeldOps T Args) {q this : Addr} (v : T) (h : q ≠ this) :
    (assign_rvalue ops this v).Quiet q := by
  unfold assign_rvalue
  repeat' (first
    | exact quiet_pure _ _
    | exact quiet_get_is_initialized _ _
    | exact quiet_set_is_initialized h _
    | exact quiet_placement_new h _ _
    | exact quiet_move_assign_contained ops _ h
    | refine quiet_bind ?_ fun _ => ?_
    | split)

theorem quiet_assign_copy (ops : HeldOps T Args) {q this : Addr} (rhs : Addr) (h : q ≠ this) :
    (assign_copy ops this rhs).Quiet q := by
  unfold assign_copy
  repeat' (first
    | exact quiet_pure _ _
    | exact quiet_get_is_initialized _ _
    | exact quiet_load _ _
    | exact quiet_set_is_initialized h _
    | exact quiet_placement_new h _ _
    | exact quiet_Reset h
    | exact quiet_assign_contained ops _ h
    | refine quiet_bind ?_ fun _ => ?_
    | split)

theorem quiet_Optional_move (ops : HeldOps T Args) {q this rhs : Addr} (h : q ≠ this) (h2 : q ≠ rhs) :
    (Optional_move ops this rhs).Quiet q := by
  unfold Optional_move
  repeat' (first
    | exact quiet_pure _ _
    | exact quiet_get_is_initialized _ _
    | exact quiet_load _ _
    | exact quiet_set_is_initialized h _
    | exact quiet_init_members h
    | exact quiet_put h2 _
    | exact quiet_placement_new h _ _
    | refine quiet_bind ?_ fun _ => ?_
    | split)

theorem quiet_assign_move (ops : HeldOps T Args) {q this rhs : Addr} (h : q ≠ this) (h2 : q ≠ rhs) :
    (assign_move ops this rhs).Quiet q := by
  unfold assign_move
  repeat' (first
    | exact quiet_pure _ _
    | exact quiet_raise _ _
    | exact quiet_get_is_initialized _ _
    | exact quiet_load _ _
    | exact quiet_set_is_initialized h _
    | exact quiet_put h _
    | exact quiet_put h2 _
    | exact quiet_record h _
    | exact quiet_placement_new h _ _
    | exact quiet_Reset h
    | refine quiet_bind ?_ fun _ => ?_
    | split)

/-! ## Copy construction, independence of copies, destruction -/

/-- C11: copy construction `Optional(const Optional& s)` of a new object at `this`,
distinct from `s`; `s` is left unchanged.  If `s` is present holding `v`, the
constructor returns, the new object is present and holds `v`, and the log grows by
exactly one copy construction.  If `s` is empty, the constructor returns, the new
object is empty and the log is unchanged; this holds whatever the buffer of `s`
contains, even no live `T` at all, so that buffer is not read. -/
theorem C11_copy_construct (ops : HeldOps T Args) (hT : ops.ValueSemantics) (w : World T)
    (this s : Addr) (hne : this ≠ s) :
    ((Optional_copy ops this s).after w).objs s = w.objs s ∧
    (∀ v, w.objs s = { data_ := some v, is_initialized_ := true } →
      (Optional_copy ops this s).outcome w = .ok () ∧
      (HasValue this).outcome ((Optional_copy ops this s).after w) = .ok true ∧
      (Value this).outcome ((Optional_copy ops this s).after w) = .ok v ∧
      ((Optional_copy ops this s).after w).log = w.log ++ [(this, .copyConstruct)]) ∧
    ((w.objs s).is_initialized_ = false →
      (Optional_copy ops this s).outcome w = .ok () ∧
      (HasValue this).outcome ((Optional_copy ops this s).after w) = .ok false ∧
      ((Optional_copy ops this s).after w).objs this = { data_ := none, is_initialized_ := false } ∧
      ((Optional_copy ops this s).after w).log = w.log) := by
  have hsn : s ≠ this := fun h => hne h.symm
  have hc := hT.copyConstruct_eq
  rcases hos : w.objs s with ⟨ds, fs⟩
  cases fs <;> cases ds <;>
    simp [Exec.outcome, Exec.after, Optional_copy, HasValue, Value, deref_const, run_load,
      hne, hsn, hos, hc]

/-- Witness of C11: copying the present `Optional<int>` at address 0 of the sample
state into a new object at address 2. -/
theorem C11_copy_construct_witness :
    (2 : Addr) ≠ 0 ∧
    (Value 2).outcome ((Optional_copy intOps 2 0).after World.sample) = .ok 42 :=
  ⟨by decide,
    ((C11_copy_construct intOps intOps_valueSemantics World.sample 2 0 (by decide)).2.1 42
      rfl).2.2.1⟩

/-- C12: a copy is independent of its original.  Let `b` be a copy of `a`, made at
a different address by copy construction or by copy assignment.  Making the copy
leaves `a` as it was, and so does every later change of `b`: assigning a value to
`b` (copy or move form), changing the value held by `b` through the reference
that `operator*` or `Value()` returns, `Reset`, and `Emplace`.  The object `a`
(its flag and its contained value) is the same after each of them. -/
theorem C12_copy_independent (ops : HeldOps T Args) (w : World T) (a b : Addr) (hab : a ≠ b)
    (x : T) (f : T → T) (args : ArgRefs T Args) (w1 : World T)
    (hcopy : w1 = (Optional_copy ops b a).after w ∨ w1 = (assign_copy ops b a).after w) :
    w1.objs a = w.objs a ∧
    ((assign_value ops b x).after w1).objs a = w.objs a ∧
    ((assign_rvalue ops b x).after w1).objs a = w.objs a ∧
    ((mutate_through_deref b f).after w1).objs a = w.objs a ∧
    ((mutate_through_Value b f).after w1).objs a = w.objs a ∧
    ((Reset b).after w1).objs a = w.objs a ∧
    ((Emplace ops b args).after w1).objs a = w.objs a := by
  have h1 : w1.objs a = w.objs a := by
    rcases hcopy with h | h
    · rw [h]; exact (quiet_Optional_copy ops a hab w).1
    · rw [h]; exact (quiet_assign_copy ops a hab w).1
  exact ⟨h1,
    ((quiet_assign_value ops x hab w1).1).trans h1,
    ((quiet_assign_rvalue ops x hab w1).1).trans h1,
    ((quiet_mutate_through_deref f hab w1).1).trans h1,
    ((quiet_mutate_through_Value f hab w1).1).trans h1,
    ((quiet_Reset hab w1).1).trans h1,
    ((quiet_Emplace ops args hab w1).1).trans h1⟩

/-- Witness of C12: `b` at address 2 is copy-constructed from the `Optional<int>`
holding 42 at address 0 and then assigned 7; the copy holds 7, the original 42. -/
theorem C12_copy_independent_witness :
    (0 : Addr) ≠ 2 ∧
    (Value 2).outcome ((assign_value intOps 2 7).after
      ((Optional_copy intOps 2 0).after World.sample)) = .ok 7 ∧
    ((assign_value intOps 2 7).after ((Optional_copy intOps 2 0).after World.sample)).objs 0 =
      { data_ := some 42, is_initialized_ := true } :=
  ⟨by decide, rfl,
    (C12_copy_independent intOps World.sample 0 2 (by decide) 7 id (.objects 7) _
      (Or.inl rfl)).2.1⟩

/-- C13: the destructor `~Optional()` is `Reset()`: on every state it has the same
outcome and leaves the same state.  On a well-formed present `Optional` it returns
and the log grows by exactly one destruction of the contained `T`; on an empty one
it returns and the state, log included, is unchanged. -/
theorem C13_destructor (w : World T) (this : Addr) (hwf : (w.objs this).WF) :
    Optional_dtor this w = Reset this w ∧
    (Optional_dtor this).outcome w = .ok () ∧
    ((HasValue this).outcome w = .ok true →
      ((Optional_dtor this).after w).log = w.log ++ [(this, .destroy)] ∧
      ((Optional_dtor this).after w).objs this = { data_ := none, is_initialized_ := false }) ∧
    ((HasValue this).outcome w = .ok false → (Optional_dtor this).after w = w) := by
  rcases hoa : w.objs this with ⟨da, fa⟩
  simp only [Optional.WF, hoa] at hwf
  cases da <;> simp at hwf <;> subst hwf <;>
    simp [Exec.outcome, Exec.after, Optional_dtor, Reset, HasValue, run_destroy_at, hoa]

/-- Witness of C13: destroying the present `Optional<int>` of the sample state
destroys its value once. -/
theorem C13_destructor_witness :
    (World.sample.objs 0).WF ∧
    ((Optional_dtor 0).after World.sample).log = [(0, .copyConstruct), (0, .destroy)] :=
  ⟨by decide, ((C13_destructor World.sample 0 (by decide)).2.2.1 rfl).1⟩

/-! ## The error kind -/

theorem avoids_pure (e : Fault) (a : α) : (pure a : Exec T α).Avoids e :=
  fun _ h => by cases h

theorem avoids_raise {e e1 : Fault} (h : e1 ≠ e) : (raise e1 : Exec T α).Avoids e :=
  fun _ h1 => h (by cases h1; rfl)

theorem avoids_bind {e : Fault} {m : Exec T α} {f : α → Exec T β} (hm : m.Avoids e)
    (hf : ∀ a, (f a).Avoids e) : (m >>= f).Avoids e := by
  intro w
  have h1 := hm w
  rw [run_bind]
  rcases hmw : m w with ⟨r, w1⟩
  rw [hmw] at h1
  cases r with
  | error e1 => simpa using h1
  | ok a => simpa using hf a w1

theorem avoids_get_is_initialized (e : Fault) (this : Addr) :
    (get_is_initialized this : Exec T Bool).Avoids e :=
  fun _ h => by cases h

theorem avoids_set_is_initialized (e : Fault) (this : Addr) (b : Bool) :
    (set_is_initialized this b : Exec T Unit).Avoids e :=
  fun _ h => by cases h

theorem avoids_init_members (e : Fault) (this : Addr) :
    (init_members this : Exec T Unit).Avoids e :=
  fun _ h => by cases h

theorem avoids_put (e : Fault) (this : Addr) (v : T) : (put this v : Exec T Unit).Avoids e :=
  fun _ h => by cases h

theorem avoids_record (e : Fault) (this : Addr) (ev : TEvent) :
    (record this ev : Exec T Unit).Avoids e :=
  fun _ h => by cases h

theorem avoids_load {e : Fault} (h : Fault.noLiveObject ≠ e) (this : Addr) :
    (load this : Exec T T).Avoids e := by
  intro w
  rw [run_load]
  split
  · intro h1; cases h1
  · intro h1; exact h (by cases h1; rfl)

theorem avoids_destroy_at {e : Fault} (h : Fault.noLiveObject ≠ e) (this : Addr) :
    (destroy_at this : Exec T Unit).Avoids e := by
  intro w
  rw [run_destroy_at]
  split
  · intro h1; cases h1
  · intro h1; exact h (by cases h1; rfl)

theorem avoids_placement_new {e : Fault} (h : Fault.heldThrew ≠ e) (this : Addr) (r : Option T)
    (ev : TEvent) : (placement_new this r ev : Exec T Unit).Avoids e := by
  intro w
  cases r with
  | none => intro h1; exact h (by cases h1; rfl)
  | some v => intro h1; cases h1

theorem no_bad_access_Reset (this : Addr) :
    (Reset this : Exec T Unit).Avoids .BadOptionalAccess := by
  unfold Reset
  repeat' (first
    | exact avoids_pure _ _
    | exact avoids_get_is_initialized _ _
    | exact avoids_set_is_initialized _ _ _
    | exact avoids_destroy_at (by decide) _
    | refine avoids_bind ?_ fun _ => ?_
    | split)

theorem no_bad_access_read (r : ArgRefs T Args) : r.read.Avoids .BadOptionalAccess := by
  cases r with
  | objects x => exact avoids_pure _ _
  | contained p view => exact avoids_bind (avoids_load (by decide) _) fun _ => avoids_pure _ _

theorem no_bad_access_Emplace (ops : HeldOps T Args) (this : Addr) (args : ArgRefs T Args) :
    (Emplace ops this args).Avoids .BadOptionalAccess := by
  unfold Emplace
  repeat' (first
    | exact avoids_set_is_initialized _ _ _
    | exact avoids_placement_new (by decide) _ _ _
    | exact no_bad_access_Reset _
    | exact no_bad_access_read _
    | refine avoids_bind ?_ fun _ => ?_)

theorem no_bad_access_assign_contained (ops : HeldOps T Args) (this : Addr) (v : T) :
    (assign_contained ops this v).Avoids .BadOptionalAccess := by
  unfold assign_contained
  repeat' (first
    | exact avoids_raise (by decide)
    | exact avoids_load (by decide) _
    | exact avoids_put _ _ _
    | exact avoids_record _ _ _
    | refine avoids_bind ?_ fun _ => ?_
    | split)

theorem no_bad_access_move_assign_contained (ops : HeldOps T Args) (this : Addr) (v : T) :
    (move_assign_contained ops this v).Avoids .BadOptionalAccess := by
  unfold move_assign_contained
  repeat' (first
    | exact avoids_pure _ _
    | exact avoids_raise (by decide)
    | exact avoids_load (by decide) _
    | exact avoids_put _ _ _
    | exact avoids_record _ _ _
    | refine avoids_bind ?_ fun _ => ?_
    | split)

theorem no_bad_access_Optional_from_value (ops : HeldOps T Args) (this : Addr) (v : T) :
    (Optional_from_value ops this v).Avoids .BadOptionalAccess := by
  unfold Optional_from_value
  repeat' (first
    | exact avoids_set_is_initialized _ _ _
    | exact avoids_init_members _ _
    | exact avoids_placement_new (by decide) _ _ _
    | refine avoids_bind ?_ fun _ => ?_)

theorem no_bad_access_Optional_from_rvalue (ops : HeldOps T Args) (this : Addr) (v : T) :
    (Optional_from_rvalue ops this v).Avoids .BadOptionalAccess := by
  unfold Optional_from_rvalue
  repeat' (first
    | exact avoids_pure _ _
    | exact avoids_set_is_initialized _ _ _
    | exact avoids_init_members _ _
    | exact avoids_placement_new (by decide) _ _ _
    | refine avoids_bind ?_ fun _ => ?_)

theorem no_bad_access_Optional_copy (ops : HeldOps T Args) (this other : Addr) :
    (Optional_copy ops this other).Avoids .BadOptionalAccess := by
  unfold Optional_copy
  repeat' (first
    | exact avoids_pure _ _
    | exact avoids_get_is_initialized _ _
    | exact avoids_load (by decide) _
    | exact avoids_set_is_initialized _ _ _
    | exact avoids_init_members _ _
    | exact avoids_placement_new (by decide) _ _ _
    | refine avoids_bind ?_ fun _ => ?_
    | split)

theorem no_bad_access_Optional_move (ops : HeldOps T Args) (this other : Addr) :
    (Optional_move ops this other).Avoids .BadOptionalAccess := by
  unfold Optional_move
  repeat' (first
    | exact avoids_pure _ _
    | exact avoids_get_is_initialized _ _
    | exact avoids_load (by decide) _
    | exact avoids_set_is_initialized _ _ _
    | exact avoids_init_members _ _
    | exact avoids_put _ _ _
    | exact avoids_placement_new (by decide) _ _ _
    | refine avoids_bind ?_ fun _ => ?_
    | split)

theorem no_bad_access_assign_value (ops : HeldOps T Args) (this : Addr) (v : T) :
    (assign_value ops this v).Avoids .BadOptionalAccess := by
  unfold assign_value
  repeat' (first
    | exact avoids_pure _ _
    | exact avoids_get_is_initialized _ _
    | exact avoids_set_is_initialized _ _ _
    | exact avoids_placement_new (by decide) _ _ _
    | exact no_bad_access_assign_contained ops _ _
    | refine avoids_bind ?_ fun _ => ?_
    | split)

theorem no_bad_access_assign_rvalue (ops : HeldOps T Args) (this : Addr) (v : T) :
    (assign_rvalue ops this v).Avoids .BadOptionalAccess := by
  unfold assign_rvalue
  repeat' (first
    | exact avoids_pure _ _
    | exact avoids_get_is_initialized _ _
    | exact avoids_set_is_initialized _ _ _
    | exact avoids_placement_new (by decide) _ _ _
    | exact no_bad_access_move_assign_contained ops _ _
    | refine avoids_bind ?_ fun _ => ?_
    | split)

theorem no_bad_access_assign_copy (ops : HeldOps T Args) (this rhs : Addr) :
    (assign_copy ops this rhs).Avoids .BadOptionalAccess := by
  unfold assign_copy
  repeat' (first
    | exact avoids_pure _ _
    | exact avoids_get_is_initialized _ _
    | exact avoids_load (by decide) _
    | exact avoids_set_is_initialized _ _ _
    | exact avoids_placement_new (by decide) _ _ _
    | exact no_bad_access_Reset _
    | exact no_bad_access_assign_contained ops _ _
    | refine avoids_bind ?_ fun _ => ?_
    | split)

theorem no_bad_access_assign_move (ops : HeldOps T Args) (this rhs : Addr) :
    (assign_move ops this rhs).Avoids .BadOptionalAccess := by
  unfold assign_move
  repeat' (first
    | exact avoids_pure _ _
    | exact avoids_raise (by decide)
    | exact avoids_get_is_initialized _ _
    | exact avoids_load (by decide) _
    | exact avoids_set_is_initialized _ _ _
    | exact avoids_put _ _ _
    | exact avoids_record _ _ _
    | exact avoids_placement_new (by decide) _ _ _
    | exact no_bad_access_Reset _
    | refine avoids_bind ?_ fun _ => ?_
    | split)

/-- C15: `BadOptionalAccess` comes only from the checked accessors on an empty
object.  In every state: the five constructors, value assignment (copy and move
form), `Optional` assignment (copy and move form), `Reset`, `Emplace`, the
destructor, `HasValue` and the unchecked `operator*` never end with
`BadOptionalAccess`; and no overload of `Value` ends with it when the presence
flag is set. -/
theorem C15_bad_access_only_from_value (ops : HeldOps T Args) (w : World T) (this other : Addr)
    (v : T) (args : ArgRefs T Args) :
    (Optional_default this).outcome w ≠ .error .BadOptionalAccess ∧
    (Optional_from_value ops this v).outcome w ≠ .error .BadOptionalAccess ∧
    (Optional_from_rvalue ops this v).outcome w ≠ .error .BadOptionalAccess ∧
    (Optional_copy ops this other).outcome w ≠ .error .BadOptionalAccess ∧
    (Optional_move ops this other).outcome w ≠ .error .BadOptionalAccess ∧
    (assign_value ops this v).outcome w ≠ .error .BadOptionalAccess ∧
    (assign_rvalue ops this v).outcome w ≠ .error .BadOptionalAccess ∧
    (assign_copy ops this other).outcome w ≠ .error .BadOptionalAccess ∧
    (assign_move ops this other).outcome w ≠ .error .BadOptionalAccess ∧
    (Reset this).outcome w ≠ .error .BadOptionalAccess ∧
    (Emplace ops this args).outcome w ≠ .error .BadOptionalAccess ∧
    (Optional_dtor this).outcome w ≠ .error .BadOptionalAccess ∧
    (HasValue this).outcome w ≠ .error .BadOptionalAccess ∧
    (deref this).outcome w ≠ .error .BadOptionalAccess ∧
    (deref_const this).outcome w ≠ .error .BadOptionalAccess ∧
    (deref_rvalue this).outcome w ≠ .error .BadOptionalAccess ∧
    ((w.objs this).is_initialized_ = true →
      (Value this).outcome w ≠ .error .BadOptionalAccess ∧
      (Value_const this).outcome w ≠ .error .BadOptionalAccess ∧
      (Value_rvalue this).outcome w ≠ .error .BadOptionalAccess) := by
  refine ⟨avoids_init_members _ _ w, no_bad_access_Optional_from_value ops this v w,
    no_bad_access_Optional_from_rvalue ops this v w, no_bad_access_Optional_copy ops this other w,
    no_bad_access_Optional_move ops this other w, no_bad_access_assign_value ops this v w,
    no_bad_access_assign_rvalue ops this v w, no_bad_access_assign_copy ops this other w,
    no_bad_access_assign_move ops this other w, no_bad_access_Reset this w,
    no_bad_access_Emplace ops this args w, no_bad_access_Reset this w,
    avoids_get_is_initialized _ _ w, avoids_load (by decide) _ w, avoids_load (by decide) _ w,
    avoids_load (by decide) _ w, ?_⟩
  intro hp
  simp only [Exec.outcome, Value, Value_const, Value_rvalue, HasValue, run_bind,
    run_get_is_initialized, hp]
  cases hd : (w.objs this).data_ <;> simp [run_load, hd]

/-- Witness of C15: on the empty `Optional<int>` at address 1 of the sample state
`Value()` does throw `BadOptionalAccess`, on the present one at address 0 it does not. -/
theorem C15_bad_access_only_from_value_witness :
    (Value 1).outcome World.sample = .error .BadOptionalAccess ∧
    (Value 0).outcome World.sample ≠ .error .BadOptionalAccess :=
  ⟨rfl,
    ((C15_bad_access_only_from_value intOps World.sample 0 1 0
      (.objects 0)).2.2.2.2.2.2.2.2.2.2.2.2.2.2.2.2 rfl).1⟩

/-- C16: the message of `BadOptionalAccess` is the fixed string "Bad optional
access".  The error has no state, so the message is the same for every instance:
whichever overload of `Value` throws, on whatever held type and in whatever
state, the fault is the one `BadOptionalAccess`, whose `what()` is that string. -/
theorem C16_what_message (w : World T) (this : Addr) (hempty : (w.objs this).is_initialized_ = false) :
    BadOptionalAccess.what = "Bad optional access" ∧
    (Value this).outcome w = .error .BadOptionalAccess ∧
    (Value_const this).outcome w = .error .BadOptionalAccess ∧
    (Value_rvalue this).outcome w = .error .BadOptionalAccess := by
  simp [BadOptionalAccess.what, Exec.outcome, Value, Value_const, Value_rvalue, HasValue, hempty]

/-- Witness of C16 on the empty `Optional<int>` at address 1 of the sample state. -/
theorem C16_what_message_witness :
    (World.sample.objs 1).is_initialized_ = false ∧
    BadOptionalAccess.what = "Bad optional access" ∧
    (Value 1).outcome World.sample = .error .BadOptionalAccess :=
  ⟨rfl, (C16_what_message World.sample 1 rfl).1, (C16_what_message World.sample 1 rfl).2.1⟩

/-- C17: `HasValue()` reports presence without side effects.  It returns the
presence flag, which on a well-formed object is true exactly when the buffer
holds a live `T`; it leaves the whole state unchanged; so a second call returns
the same result. -/
theorem C17_has_value_pure (w : World T) (this : Addr) (hwf : (w.objs this).WF) :
    (HasValue this).outcome w = .ok (w.objs this).is_initialized_ ∧
    ((HasValue this).outcome w = .ok true ↔ ∃ v, (w.objs this).data_ = some v) ∧
    (HasValue this).after w = w ∧
    (HasValue this).outcome ((HasValue this).after w) = (HasValue this).outcome w := by
  rcases hoa : w.objs this with ⟨da, fa⟩
  simp only [Optional.WF, hoa] at hwf
  cases da <;> simp at hwf <;> subst hwf <;>
    simp [Exec.outcome, Exec.after, HasValue, hoa]

/-- Witness of C17 on the present `Optional<int>` of the sample state. -/
theorem C17_has_value_pure_witness :
    (World.sample.objs 0).WF ∧ (HasValue 0).outcome World.sample = .ok true :=
  ⟨by decide, (C17_has_value_pure World.sample 0 (by decide)).1⟩

/-! ## Moving out, and failure of a construction -/

/-- C18: moving out of an `Optional` does not empty it.  For a source `s` holding
`v` and a distinct target `t`: after the move constructor, and after move
assignment into a well-formed `t`, the call has returned, `s.HasValue()` is still
true, no destruction in the buffer of `s` is logged, and `t` is present.  The
source holds exactly the state that the move of `T` left in its value: that of
`T(T&&)` after the move constructor and after move assignment into an empty `t`,
that of `T::operator=(T&&)` on the old value `x` of `t` after move assignment into
a present `t`.  For an empty source, `s` is unchanged and so stays empty. -/
theorem C18_move_keeps_source (ops : HeldOps T Args) (hT : ops.ValueSemantics) (w : World T)
    (t s : Addr) (hne : t ≠ s) :
    (∀ v, w.objs s = { data_ := some v, is_initialized_ := true } →
      ((Optional_move ops t s).outcome w = .ok () ∧
        (HasValue s).outcome ((Optional_move ops t s).after w) = .ok true ∧
        ((Optional_move ops t s).after w).objs s =
          { data_ := some (ops.moveConstruct v).2, is_initialized_ := true } ∧
        destructions s ((Optional_move ops t s).after w).log = destructions s w.log ∧
        (HasValue t).outcome ((Optional_move ops t s).after w) = .ok true) ∧
      ((w.objs t).WF →
        (assign_move ops t s).outcome w = .ok t ∧
        (HasValue s).outcome ((assign_move ops t s).after w) = .ok true ∧
        (∀ x, w.objs t = { data_ := some x, is_initialized_ := true } →
          ((assign_move ops t s).after w).objs s =
            { data_ := some (ops.moveAssign x v).2.2, is_initialized_ := true }) ∧
        ((w.objs t).is_initialized_ = false →
          ((assign_move ops t s).after w).objs s =
            { data_ := some (ops.moveConstruct v).2, is_initialized_ := true }) ∧
        destructions s ((assign_move ops t s).after w).log = destructions s w.log ∧
        (HasValue t).outcome ((assign_move ops t s).after w) = .ok true)) ∧
    ((w.objs s).is_initialized_ = false →
      ((Optional_move ops t s).after w).objs s = w.objs s ∧
      (HasValue s).outcome ((Optional_move ops t s).after w) = .ok false ∧
      ((assign_move ops t s).after w).objs s = w.objs s ∧
      (HasValue s).outcome ((assign_move ops t s).after w) = .ok false) := by
  have hst : s ≠ t := fun h => hne h.symm
  have hm := hT.moveConstruct_eq
  have hma := fun x y => (hT.moveAssign_eq x y).1
  refine ⟨fun v hos => ⟨?_, fun hwf => ?_⟩, fun hs => ?_⟩
  · simp [Exec.outcome, Exec.after, Optional_move, HasValue, deref, run_load, hne, hst, hos, hm,
      destructions, TEvent.isDestroy]
  · rcases hot : w.objs t with ⟨dt, ft⟩
    simp only [Optional.WF, hot] at hwf
    cases dt <;> simp at hwf <;> subst hwf <;>
      simp [Exec.outcome, Exec.after, assign_move, HasValue, deref, run_load, hne, hst, hos, hot,
        hm, hma, destructions, TEvent.isDestroy]
  · rcases hos : w.objs s with ⟨ds, fs⟩
    rw [hos] at hs
    simp only at hs
    subst hs
    rcases hot : w.objs t with ⟨_ | x, _ | _⟩ <;>
      simp [Exec.outcome, Exec.after, Optional_move, assign_move, Reset, HasValue,
        run_destroy_at, hne, hst, hos, hot]

/-- Witness of C18 with a string-like held type, whose move leaves the source
empty: the source at address 0 holds "x"; after move construction of a new
object at address 1, and likewise after move assignment into the empty object at
address 1, the source is still present and holds the moved-from "". -/
theorem C18_move_keeps_source_witness :
    (1 : Addr) ≠ 0 ∧
    ((Optional_move stringOps 1 0).after
      ((Optional_from_value stringOps 0 "x").after (World.empty String))).objs 0 =
        { data_ := some "", is_initialized_ := true } ∧
    ((assign_move stringOps 1 0).after
      ((Optional_from_value stringOps 0 "x").after (World.empty String))).objs 0 =
        { data_ := some "", is_initialized_ := true } :=
  have h := (C18_move_keeps_source stringOps stringOps_valueSemantics
    ((Optional_from_value stringOps 0 "x").after (World.empty String)) 1 0 (by decide)).1 "x" rfl
  ⟨by decide, h.1.2.2.1, (h.2 (by decide)).2.2.2.1 rfl⟩

@[simp] theorem constructions_nil (p : Addr) : constructions p [] = 0 := rfl

@[simp] theorem destructions_nil (p : Addr) : destructions p [] = 0 := rfl

@[simp] theorem constructions_cons (p q : Addr) (ev : TEvent) (l : List (Addr × TEvent)) :
    constructions p ((q, ev) :: l) =
      (if q = p ∧ ev.isConstruct = true then 1 else 0) + constructions p l := by
  by_cases h : q = p <;> cases hev : ev.isConstruct <;>
    simp [constructions, List.countP_cons, h, hev, Nat.add_comm]

@[simp] theorem destructions_cons (p q : Addr) (ev : TEvent) (l : List (Addr × TEvent)) :
    destructions p ((q, ev) :: l) =
      (if q = p ∧ ev.isDestroy = true then 1 else 0) + destructions p l := by
  by_cases h : q = p <;> cases hev : ev.isDestroy <;>
    simp [destructions, List.countP_cons, h, hev, Nat.add_comm]

@[simp] theorem constructions_append (p : Addr) (l1 l2 : List (Addr × TEvent)) :
    constructions p (l1 ++ l2) = constructions p l1 + constructions p l2 := by
  simp [constructions, List.countP_append]

@[simp] theorem destructions_append (p : Addr) (l1 l2 : List (Addr × TEvent)) :
    destructions p (l1 ++ l2) = destructions p l1 + destructions p l2 := by
  simp [destructions, List.countP_append]

theorem balancedAt_of_quiet {q : Addr} {m : Exec T α} (hq : m.Quiet q) (w : World T)
    (h : w.BalancedAt q) : (m.after w).BalancedAt q := by
  obtain ⟨h1, h2, h3⟩ := hq w
  unfold World.BalancedAt Exec.after at *
  rw [h1, h2, h3]
  exact h

theorem quiet_discard {q : Addr} {m : Exec T α} (hq : m.Quiet q) : m.discard.Quiet q :=
  fun w => hq w

theorem after_discard (m : Exec T α) (w : World T) : m.discard.after w = m.after w := rfl

theorem outcome_discard (m : Exec T α) (w : World T) (e : Fault) (h : m.outcome w ≠ .error e) :
    m.discard.outcome w ≠ .error e := by
  unfold Exec.outcome Exec.discard at *
  cases hm : (m w).1 with
  | ok a => simp
  | error e1 => simpa [hm] using h

theorem balancedAt_Reset (w : World T) (this : Addr)
    (h : w.BalancedAt this) :
    ((Reset this).after w).BalancedAt this ∧
    (Reset this).outcome w ≠ .error .noLiveObject := by
  obtain ⟨hwf, hc⟩ := h
  rcases hoa : w.objs this with ⟨da, fa⟩
  simp only [Optional.WF, hoa] at hwf hc
  cases da <;> simp at hwf <;> subst hwf <;>
    simp [World.BalancedAt, Optional.WF, Exec.after, Exec.outcome, TEvent.isConstruct,
      TEvent.isDestroy, Reset, run_destroy_at, hoa] <;>
        first | omega | (simp at hc; omega)

theorem balancedAt_Emplace (ops : HeldOps T Args) (w : World T) (this : Addr)
    (r : ArgRefs T Args) (hb : w.Balanced) :
    ((Emplace ops this r).after w).BalancedAt this ∧
    (Op.uncheckedOnEmpty w (.emplace this r : Op T Args) = false →
      Op.emplaceFromOwnValue (.emplace this r : Op T Args) = false →
      (Emplace ops this r).outcome w ≠ .error .noLiveObject) := by
  obtain ⟨hwf, hc⟩ := hb this
  rcases hoa : w.objs this with ⟨da, fa⟩
  simp only [Optional.WF, hoa] at hwf hc
  cases r with
  | objects x =>
    cases da <;> simp at hwf <;> subst hwf <;> cases hr : ops.construct x <;>
      simp [World.BalancedAt, Optional.WF, Exec.after, Exec.outcome, TEvent.isConstruct,
        TEvent.isDestroy, Emplace, ArgRefs.read, ArgRefs.refersInto, Op.uncheckedOnEmpty,
        Op.emplaceFromOwnValue, Reset, run_load, run_destroy_at, hoa, hr] <;>
      first | omega | (simp at hc; omega)
  | contained p view =>
    by_cases hp : p = this
    · subst hp
      cases da <;> simp at hwf <;> subst hwf <;>
        simp [World.BalancedAt, Optional.WF, Exec.after, Exec.outcome, TEvent.isConstruct,
        TEvent.isDestroy, Emplace, ArgRefs.read, ArgRefs.refersInto, Op.uncheckedOnEmpty,
        Op.emplaceFromOwnValue, Reset, run_load, run_destroy_at, hoa] <;>
        first | omega | (simp at hc; omega)
    · have hwp := (hb p).1
      rcases hop : w.objs p with ⟨dp, fp⟩
      simp only [Optional.WF, hop] at hwp
      cases dp with
      | none =>
        simp at hwp; subst hwp
        cases da <;> simp at hwf <;> subst hwf <;>
          simp [World.BalancedAt, Optional.WF, Exec.after, Exec.outcome, TEvent.isConstruct,
        TEvent.isDestroy, Emplace, ArgRefs.read, ArgRefs.refersInto, Op.uncheckedOnEmpty,
        Op.emplaceFromOwnValue, Reset, run_load, run_destroy_at, hoa, hop, hp] <;>
          first | omega | (simp at hc; omega)
      | some u =>
        simp at hwp; subst hwp
        cases da <;> simp at hwf <;> subst hwf <;> cases hr : ops.construct (view u) <;>
          simp [World.BalancedAt, Optional.WF, Exec.after, Exec.outcome, TEvent.isConstruct,
        TEvent.isDestroy, Emplace, ArgRefs.read, ArgRefs.refersInto, Op.uncheckedOnEmpty,
        Op.emplaceFromOwnValue, Reset, run_load, run_destroy_at, hoa, hop, hp, hr] <;>
          first | omega | (simp at hc; omega)

theorem balancedAt_ctor_default (w : World T) (this : Addr)
    (h : w.BalancedAt this) (hp : (w.objs this).is_initialized_ = false) :
    ((Optional_default this).after w).BalancedAt this ∧
    (Optional_default this).outcome w ≠ .error .noLiveObject := by
  obtain ⟨hwf, hc⟩ := h
  rw [hp] at hc
  simp [World.BalancedAt, Optional.WF, Exec.after, Exec.outcome, TEvent.isConstruct,
    TEvent.isDestroy, Optional_default]
  simpa using hc

theorem balancedAt_ctor_value (ops : HeldOps T Args) (w : World T) (this : Addr) (v : T)
    (h : w.BalancedAt this) (hp : (w.objs this).is_initialized_ = false) :
    ((Optional_from_value ops this v).after w).BalancedAt this ∧
    (Optional_from_value ops this v).outcome w ≠ .error .noLiveObject := by
  obtain ⟨hwf, hc⟩ := h
  rw [hp] at hc
  cases hr : ops.copyConstruct v <;>
    simp [World.BalancedAt, Optional.WF, Exec.after, Exec.outcome, TEvent.isConstruct,
      TEvent.isDestroy, Optional_from_value, hr] <;>
        first | omega | (simp at hc; omega)

theorem balancedAt_ctor_rvalue (ops : HeldOps T Args) (w : World T) (this : Addr) (v : T)
    (h : w.BalancedAt this) (hp : (w.objs this).is_initialized_ = false) :
    ((Optional_from_rvalue ops this v).after w).BalancedAt this ∧
    (Optional_from_rvalue ops this v).outcome w ≠ .error .noLiveObject := by
  obtain ⟨hwf, hc⟩ := h
  rw [hp] at hc
  cases hr : (ops.moveConstruct v).1 <;>
    simp [World.BalancedAt, Optional.WF, Exec.after, Exec.outcome, TEvent.isConstruct,
      TEvent.isDestroy, Optional_from_rvalue, hr] <;>
        first | omega | (simp at hc; omega)

theorem balancedAt_assign_value (ops : HeldOps T Args) (w : World T) (this : Addr) (v : T)
    (h : w.BalancedAt this) :
    ((assign_value ops this v).after w).BalancedAt this ∧
    (assign_value ops this v).outcome w ≠ .error .noLiveObject := by
  obtain ⟨hwf, hc⟩ := h
  rcases hoa : w.objs this with ⟨da, fa⟩
  simp only [Optional.WF, hoa] at hwf hc
  cases da with
  | none =>
    simp at hwf; subst hwf
    cases hr : ops.copyConstruct v <;>
      simp [World.BalancedAt, Optional.WF, Exec.after, Exec.outcome, TEvent.isConstruct,
        TEvent.isDestroy, assign_value, hoa, hr] <;>
        first | omega | (simp at hc; omega)
  | some t =>
    simp at hwf; subst hwf
    rcases hr : ops.copyAssign t v with ⟨_ | _, t2⟩ <;>
      simp [World.BalancedAt, Optional.WF, Exec.after, Exec.outcome, TEvent.isConstruct,
        TEvent.isDestroy, assign_value, assign_contained, deref, run_load, hoa, hr] <;>
        first | omega | (simp at hc; omega)

theorem balancedAt_assign_rvalue (ops : HeldOps T Args) (w : World T) (this : Addr) (v : T)
    (h : w.BalancedAt this) :
    ((assign_rvalue ops this v).after w).BalancedAt this ∧
    (assign_rvalue ops this v).outcome w ≠ .error .noLiveObject := by
  obtain ⟨hwf, hc⟩ := h
  rcases hoa : w.objs this with ⟨da, fa⟩
  simp only [Optional.WF, hoa] at hwf hc
  cases da with
  | none =>
    simp at hwf; subst hwf
    cases hr : (ops.moveConstruct v).1 <;>
      simp [World.BalancedAt, Optional.WF, Exec.after, Exec.outcome, TEvent.isConstruct,
        TEvent.isDestroy, assign_rvalue, hoa, hr] <;>
        first | omega | (simp at hc; omega)
  | some t =>
    simp at hwf; subst hwf
    rcases hr : ops.moveAssign t v with ⟨_ | _, t2, s2⟩ <;>
      simp [World.BalancedAt, Optional.WF, Exec.after, Exec.outcome, TEvent.isConstruct,
        TEvent.isDestroy, assign_rvalue, move_assign_contained, deref, run_load, hoa, hr] <;>
        first | omega | (simp at hc; omega)

theorem balancedAt_mutate_through_deref (w : World T) (this : Addr) (f : T → T)
    (h : w.BalancedAt this) :
    ((mutate_through_deref this f).after w).BalancedAt this ∧
    ((w.objs this).is_initialized_ = true → (mutate_through_deref this f).outcome w ≠ .error .noLiveObject) := by
  obtain ⟨hwf, hc⟩ := h
  rcases hoa : w.objs this with ⟨da, fa⟩
  simp only [Optional.WF, hoa] at hwf hc
  cases da <;> simp at hwf <;> subst hwf <;>
    simp [World.BalancedAt, Optional.WF, Exec.after, Exec.outcome, TEvent.isConstruct,
      TEvent.isDestroy, mutate_through_deref, deref, run_load, hoa] <;>
        first | omega | (simp at hc; omega)

theorem balancedAt_mutate_through_Value (w : World T) (this : Addr) (f : T → T)
    (h : w.BalancedAt this) :
    ((mutate_through_Value this f).after w).BalancedAt this ∧
    (mutate_through_Value this f).outcome w ≠ .error .noLiveObject := by
  obtain ⟨hwf, hc⟩ := h
  rcases hoa : w.objs this with ⟨da, fa⟩
  simp only [Optional.WF, hoa] at hwf hc
  cases da <;> simp at hwf <;> subst hwf <;>
    simp [World.BalancedAt, Optional.WF, Exec.after, Exec.outcome, TEvent.isConstruct,
      TEvent.isDestroy, mutate_through_Value, Value, run_load, hoa] <;>
        first | omega | (simp at hc; omega)

theorem balancedAt_Value (w : World T) (this : Addr)
    (h : w.BalancedAt this) :
    ((Value this).after w).BalancedAt this ∧
    (Value this).outcome w ≠ .error .noLiveObject := by
  obtain ⟨hwf, hc⟩ := h
  rcases hoa : w.objs this with ⟨da, fa⟩
  simp only [Optional.WF, hoa] at hwf hc
  cases da <;> simp at hwf <;> subst hwf <;>
    simp [World.BalancedAt, Optional.WF, Exec.after, Exec.outcome, TEvent.isConstruct,
      TEvent.isDestroy, Value, run_load, hoa] <;>
        first | omega | (simp at hc; omega)

theorem balancedAt_Value_const (w : World T) (this : Addr)
    (h : w.BalancedAt this) :
    ((Value_const this).after w).BalancedAt this ∧
    (Value_const this).outcome w ≠ .error .noLiveObject := by
  obtain ⟨hwf, hc⟩ := h
  rcases hoa : w.objs this with ⟨da, fa⟩
  simp only [Optional.WF, hoa] at hwf hc
  cases da <;> simp at hwf <;> subst hwf <;>
    simp [World.BalancedAt, Optional.WF, Exec.after, Exec.outcome, TEvent.isConstruct,
      TEvent.isDestroy, Value_const, HasValue, run_load, hoa] <;>
        first | omega | (simp at hc; omega)

theorem balancedAt_Value_rvalue (w : World T) (this : Addr)
    (h : w.BalancedAt this) :
    ((Value_rvalue this).after w).BalancedAt this ∧
    (Value_rvalue this).outcome w ≠ .error .noLiveObject := by
  obtain ⟨hwf, hc⟩ := h
  rcases hoa : w.objs this with ⟨da, fa⟩
  simp only [Optional.WF, hoa] at hwf hc
  cases da <;> simp at hwf <;> subst hwf <;>
    simp [World.BalancedAt, Optional.WF, Exec.after, Exec.outcome, TEvent.isConstruct,
      TEvent.isDestroy, Value_rvalue, run_load, hoa] <;>
        first | omega | (simp at hc; omega)

theorem balancedAt_load (w : World T) (this : Addr)
    (h : w.BalancedAt this) :
    ((load this).after w).BalancedAt this ∧
    ((w.objs this).is_initialized_ = true → (load this).outcome w ≠ .error .noLiveObject) := by
  obtain ⟨hwf, hc⟩ := h
  rcases hoa : w.objs this with ⟨da, fa⟩
  simp only [Optional.WF, hoa] at hwf hc
  cases da <;> simp at hwf <;> subst hwf <;>
    simp [World.BalancedAt, Optional.WF, Exec.after, Exec.outcome, TEvent.isConstruct,
      TEvent.isDestroy, run_load, hoa] <;>
        first | omega | (simp at hc; omega)

theorem balancedAt_assign_copy (ops : HeldOps T Args) (w : World T) (this rhs : Addr)
    (h : w.BalancedAt this) (ho : w.BalancedAt rhs) :
    ((assign_copy ops this rhs).after w).BalancedAt this ∧
    ((assign_copy ops this rhs).after w).BalancedAt rhs ∧
    (assign_copy ops this rhs).outcome w ≠ .error .noLiveObject := by
  by_cases hne : this = rhs
  · subst hne
    simpa [Exec.after, Exec.outcome, assign_copy] using h
  · have hne2 : rhs ≠ this := fun e => hne e.symm
    obtain ⟨hwf, hc⟩ := h
    obtain ⟨hwo, hco⟩ := ho
    rcases hoa : w.objs this with ⟨da, fa⟩
    rcases hoo : w.objs rhs with ⟨dd, fo⟩
    simp only [Optional.WF, hoa, hoo] at hwf hc hwo hco
    cases da with
    | none =>
      simp at hwf; subst hwf
      cases dd with
      | none =>
        simp at hwo; subst hwo
        simp [World.BalancedAt, Optional.WF, Exec.after, Exec.outcome, TEvent.isConstruct,
          TEvent.isDestroy, assign_copy, hoa, hoo, hne, hne2]
        first | omega | (simp at hc; omega) | (simp at hc hco; omega)
      | some u =>
        simp at hwo; subst hwo
        cases hr : ops.copyConstruct u <;>
          simp [World.BalancedAt, Optional.WF, Exec.after, Exec.outcome, TEvent.isConstruct,
            TEvent.isDestroy, assign_copy, deref, deref_const, run_load, hoa, hoo, hne, hne2,
            hr] <;>
        first | omega | (simp at hc; omega) | (simp at hc hco; omega)
    | some t =>
      simp at hwf; subst hwf
      cases dd with
      | none =>
        simp at hwo; subst hwo
        simp [World.BalancedAt, Optional.WF, Exec.after, Exec.outcome, TEvent.isConstruct,
          TEvent.isDestroy, assign_copy, Reset, run_destroy_at, hoa, hoo, hne, hne2]
        first | omega | (simp at hc; omega) | (simp at hc hco; omega)
      | some u =>
        simp at hwo; subst hwo
        rcases hr : ops.copyAssign t u with ⟨_ | _, t2⟩ <;>
          simp [World.BalancedAt, Optional.WF, Exec.after, Exec.outcome, TEvent.isConstruct,
            TEvent.isDestroy, assign_copy, assign_contained, deref, deref_const, run_load, hoa,
            hoo, hne, hne2,
            hr] <;>
        first | omega | (simp at hc; omega) | (simp at hc hco; omega)

theorem balancedAt_assign_move (ops : HeldOps T Args) (w : World T) (this rhs : Addr)
    (h : w.BalancedAt this) (ho : w.BalancedAt rhs) :
    ((assign_move ops this rhs).after w).BalancedAt this ∧
    ((assign_move ops this rhs).after w).BalancedAt rhs ∧
    (assign_move ops this rhs).outcome w ≠ .error .noLiveObject := by
  by_cases hne : this = rhs
  · subst hne
    simpa [Exec.after, Exec.outcome, assign_move] using h
  · have hne2 : rhs ≠ this := fun e => hne e.symm
    obtain ⟨hwf, hc⟩ := h
    obtain ⟨hwo, hco⟩ := ho
    rcases hoa : w.objs this with ⟨da, fa⟩
    rcases hoo : w.objs rhs with ⟨dd, fo⟩
    simp only [Optional.WF, hoa, hoo] at hwf hc hwo hco
    cases da with
    | none =>
      simp at hwf; subst hwf
      cases dd with
      | none =>
        simp at hwo; subst hwo
        simp [World.BalancedAt, Optional.WF, Exec.after, Exec.outcome, TEvent.isConstruct,
          TEvent.isDestroy, assign_move, hoa, hoo, hne, hne2]
        first | omega | (simp at hc; omega) | (simp at hc hco; omega)
      | some u =>
        simp at hwo; subst hwo
        cases hr : (ops.moveConstruct u).1 <;>
          simp [World.BalancedAt, Optional.WF, Exec.after, Exec.outcome, TEvent.isConstruct,
            TEvent.isDestroy, assign_move, deref, deref_const, run_load, hoa, hoo, hne, hne2,
            hr] <;>
        first | omega | (simp at hc; omega) | (simp at hc hco; omega)
    | some t =>
      simp at hwf; subst hwf
      cases dd with
      | none =>
        simp at hwo; subst hwo
        simp [World.BalancedAt, Optional.WF, Exec.after, Exec.outcome, TEvent.isConstruct,
          TEvent.isDestroy, assign_move, Reset, run_destroy_at, hoa, hoo, hne, hne2]
        first | omega | (simp at hc; omega) | (simp at hc hco; omega)
      | some u =>
        simp at hwo; subst hwo
        rcases hr : ops.moveAssign t u with ⟨_ | _, t2, s2⟩ <;>
          simp [World.BalancedAt, Optional.WF, Exec.after, Exec.outcome, TEvent.isConstruct,
            TEvent.isDestroy, assign_move, deref, deref_const, run_load, hoa, hoo, hne, hne2,
            hr] <;>
        first | omega | (simp at hc; omega) | (simp at hc hco; omega)

theorem balancedAt_Optional_copy (ops : HeldOps T Args) (w : World T) (this rhs : Addr)
    (h : w.BalancedAt this) (ho : w.BalancedAt rhs)
    (hp : (w.objs this).is_initialized_ = false) :
    ((Optional_copy ops this rhs).after w).BalancedAt this ∧
    ((Optional_copy ops this rhs).after w).BalancedAt rhs ∧
    (Optional_copy ops this rhs).outcome w ≠ .error .noLiveObject := by
  obtain ⟨hwf, hc⟩ := h
  rw [hp] at hc
  by_cases hne : this = rhs
  · subst hne
    simp [World.BalancedAt, Optional.WF, Exec.after, Exec.outcome, TEvent.isConstruct,
      TEvent.isDestroy, Optional_copy]
    first | omega | (simp at hc; omega)
  · have hne2 : rhs ≠ this := fun e => hne e.symm
    obtain ⟨hwo, hco⟩ := ho
    rcases hoo : w.objs rhs with ⟨dd, fo⟩
    simp only [Optional.WF, hoo] at hwo hco
    cases dd with
    | none =>
      simp at hwo; subst hwo
      simp [World.BalancedAt, Optional.WF, Exec.after, Exec.outcome, TEvent.isConstruct,
        TEvent.isDestroy, Optional_copy, hoo, hne, hne2]
      first | omega | (simp at hc; omega) | (simp at hc hco; omega)
    | some u =>
      simp at hwo; subst hwo
      cases hr : ops.copyConstruct u <;>
        simp [World.BalancedAt, Optional.WF, Exec.after, Exec.outcome, TEvent.isConstruct,
          TEvent.isDestroy, Optional_copy, deref, deref_const, run_load, hoo, hne, hne2, hr] <;>
        first | omega | (simp at hc; omega) | (simp at hc hco; omega)

theorem balancedAt_Optional_move (ops : HeldOps T Args) (w : World T) (this rhs : Addr)
    (h : w.BalancedAt this) (ho : w.BalancedAt rhs)
    (hp : (w.objs this).is_initialized_ = false) :
    ((Optional_move ops this rhs).after w).BalancedAt this ∧
    ((Optional_move ops this rhs).after w).BalancedAt rhs ∧
    (Optional_move ops this rhs).outcome w ≠ .error .noLiveObject := by
  obtain ⟨hwf, hc⟩ := h
  rw [hp] at hc
  by_cases hne : this = rhs
  · subst hne
    simp [World.BalancedAt, Optional.WF, Exec.after, Exec.outcome, TEvent.isConstruct,
      TEvent.isDestroy, Optional_move]
    first | omega | (simp at hc; omega)
  · have hne2 : rhs ≠ this := fun e => hne e.symm
    obtain ⟨hwo, hco⟩ := ho
    rcases hoo : w.objs rhs with ⟨dd, fo⟩
    simp only [Optional.WF, hoo] at hwo hco
    cases dd with
    | none =>
      simp at hwo; subst hwo
      simp [World.BalancedAt, Optional.WF, Exec.after, Exec.outcome, TEvent.isConstruct,
        TEvent.isDestroy, Optional_move, hoo, hne, hne2]
      first | omega | (simp at hc; omega) | (simp at hc hco; omega)
    | some u =>
      simp at hwo; subst hwo
      cases hr : (ops.moveConstruct u).1 <;>
        simp [World.BalancedAt, Optional.WF, Exec.after, Exec.outcome, TEvent.isConstruct,
          TEvent.isDestroy, Optional_move, deref, deref_const, run_load, hoo, hne, hne2, hr] <;>
        first | omega | (simp at hc; omega) | (simp at hc hco; omega)

theorem quiet_Value_const (q this : Addr) : (Value_const this : Exec T T).Quiet q := by
  unfold Value_const
  repeat' (first
    | exact quiet_pure _ _
    | exact quiet_raise _ _
    | exact quiet_get_is_initialized _ _
    | exact quiet_load _ _
    | refine quiet_bind ?_ fun _ => ?_
    | split)

theorem quiet_Value_rvalue (q this : Addr) : (Value_rvalue this : Exec T T).Quiet q := by
  unfold Value_rvalue
  repeat' (first
    | exact quiet_pure _ _
    | exact quiet_raise _ _
    | exact quiet_get_is_initialized _ _
    | exact quiet_load _ _
    | refine quiet_bind ?_ fun _ => ?_
    | split)

/-- One permitted call keeps the storage invariant and does not use a buffer that
holds no live `T`. -/
theorem balanced_step (ops : HeldOps T Args) (w : World T) (c : Op T Args) (hb : w.Balanced)
    (hp : c.permitted w = true) :
    ((c.run ops).after w).Balanced ∧
    (c.uncheckedOnEmpty w = false → c.emplaceFromOwnValue = false →
      (c.run ops).outcome w ≠ .error .noLiveObject) := by
  cases c with
  | ctor_default this =>
    have hp1 : (w.objs this).is_initialized_ = false := by simpa [Op.permitted] using hp
    have h := balancedAt_ctor_default w this (hb this) hp1
    refine ⟨fun p => ?_, fun _ _ => h.2⟩
    by_cases hq : p = this
    · subst hq; exact h.1
    · exact balancedAt_of_quiet (quiet_init_members hq) w (hb p)
  | ctor_value this v =>
    have hp1 : (w.objs this).is_initialized_ = false := by simpa [Op.permitted] using hp
    have h := balancedAt_ctor_value ops w this v (hb this) hp1
    refine ⟨fun p => ?_, fun _ _ => h.2⟩
    by_cases hq : p = this
    · subst hq; exact h.1
    · exact balancedAt_of_quiet (quiet_Optional_from_value ops v hq) w (hb p)
  | ctor_rvalue this v =>
    have hp1 : (w.objs this).is_initialized_ = false := by simpa [Op.permitted] using hp
    have h := balancedAt_ctor_rvalue ops w this v (hb this) hp1
    refine ⟨fun p => ?_, fun _ _ => outcome_discard _ _ _ h.2⟩
    by_cases hq : p = this
    · subst hq; exact h.1
    · exact balancedAt_of_quiet (quiet_discard (quiet_Optional_from_rvalue ops v hq)) w (hb p)
  | ctor_copy this rhs =>
    have hp1 : (w.objs this).is_initialized_ = false := by simpa [Op.permitted] using hp
    have h := balancedAt_Optional_copy ops w this rhs (hb this) (hb rhs) hp1
    refine ⟨fun p => ?_, fun _ _ => h.2.2⟩
    by_cases hq : p = this
    · subst hq; exact h.1
    · by_cases hq2 : p = rhs
      · subst hq2; exact h.2.1
      · exact balancedAt_of_quiet (quiet_Optional_copy ops rhs hq) w (hb p)
  | ctor_move this rhs =>
    have hp1 : (w.objs this).is_initialized_ = false := by simpa [Op.permitted] using hp
    have h := balancedAt_Optional_move ops w this rhs (hb this) (hb rhs) hp1
    refine ⟨fun p => ?_, fun _ _ => h.2.2⟩
    by_cases hq : p = this
    · subst hq; exact h.1
    · by_cases hq2 : p = rhs
      · subst hq2; exact h.2.1
      · exact balancedAt_of_quiet (quiet_Optional_move ops hq hq2) w (hb p)
  | assign_value this v =>
    have h := balancedAt_assign_value ops w this v (hb this)
    refine ⟨fun p => ?_, fun _ _ => outcome_discard _ _ _ h.2⟩
    by_cases hq : p = this
    · subst hq; exact h.1
    · exact balancedAt_of_quiet (quiet_discard (quiet_assign_value ops v hq)) w (hb p)
  | assign_rvalue this v =>
    have h := balancedAt_assign_rvalue ops w this v (hb this)
    refine ⟨fun p => ?_, fun _ _ => outcome_discard _ _ _ h.2⟩
    by_cases hq : p = this
    · subst hq; exact h.1
    · exact balancedAt_of_quiet (quiet_discard (quiet_assign_rvalue ops v hq)) w (hb p)
  | assign_copy this rhs =>
    have h := balancedAt_assign_copy ops w this rhs (hb this) (hb rhs)
    refine ⟨fun p => ?_, fun _ _ => outcome_discard _ _ _ h.2.2⟩
    by_cases hq : p = this
    · subst hq; exact h.1
    · by_cases hq2 : p = rhs
      · subst hq2; exact h.2.1
      · exact balancedAt_of_quiet (quiet_discard (quiet_assign_copy ops rhs hq)) w (hb p)
  | assign_move this rhs =>
    have h := balancedAt_assign_move ops w this rhs (hb this) (hb rhs)
    refine ⟨fun p => ?_, fun _ _ => outcome_discard _ _ _ h.2.2⟩
    by_cases hq : p = this
    · subst hq; exact h.1
    · by_cases hq2 : p = rhs
      · subst hq2; exact h.2.1
      · exact balancedAt_of_quiet (quiet_discard (quiet_assign_move ops hq hq2)) w (hb p)
  | reset this =>
    have h := balancedAt_Reset w this (hb this)
    refine ⟨fun p => ?_, fun _ _ => h.2⟩
    by_cases hq : p = this
    · subst hq; exact h.1
    · exact balancedAt_of_quiet (quiet_Reset hq) w (hb p)
  | emplace this args =>
    have h := balancedAt_Emplace ops w this args hb
    refine ⟨fun p => ?_, h.2⟩
    by_cases hq : p = this
    · subst hq; exact h.1
    · exact balancedAt_of_quiet (quiet_Emplace ops args hq) w (hb p)
  | dtor this =>
    have h := balancedAt_Reset w this (hb this)
    refine ⟨fun p => ?_, fun _ _ => h.2⟩
    by_cases hq : p = this
    · subst hq; exact h.1
    · exact balancedAt_of_quiet (quiet_Reset hq) w (hb p)
  | has_value this =>
    exact ⟨fun p => balancedAt_of_quiet (quiet_discard (quiet_get_is_initialized p this)) w (hb p),
      fun _ _ => by simp [Op.run, Exec.outcome, Exec.discard, HasValue]⟩
  | value this =>
    exact ⟨fun p => balancedAt_of_quiet (quiet_discard (quiet_Value p this)) w (hb p),
      fun _ _ => outcome_discard _ _ _ (balancedAt_Value w this (hb this)).2⟩
  | value_const this =>
    exact ⟨fun p => balancedAt_of_quiet (quiet_discard (quiet_Value_const p this)) w (hb p),
      fun _ _ => outcome_discard _ _ _ (balancedAt_Value_const w this (hb this)).2⟩
  | value_rvalue this =>
    exact ⟨fun p => balancedAt_of_quiet (quiet_discard (quiet_Value_rvalue p this)) w (hb p),
      fun _ _ => outcome_discard _ _ _ (balancedAt_Value_rvalue w this (hb this)).2⟩
  | deref this =>
    exact ⟨fun p => balancedAt_of_quiet (quiet_discard (quiet_load p this)) w (hb p),
      fun hc _ => outcome_discard _ _ _
        ((balancedAt_load w this (hb this)).2 (by simpa [Op.uncheckedOnEmpty] using hc))⟩
  | deref_const this =>
    exact ⟨fun p => balancedAt_of_quiet (quiet_discard (quiet_load p this)) w (hb p),
      fun hc _ => outcome_discard _ _ _
        ((balancedAt_load w this (hb this)).2 (by simpa [Op.uncheckedOnEmpty] using hc))⟩
  | deref_rvalue this =>
    exact ⟨fun p => balancedAt_of_quiet (quiet_discard (quiet_load p this)) w (hb p),
      fun hc _ => outcome_discard _ _ _
        ((balancedAt_load w this (hb this)).2 (by simpa [Op.uncheckedOnEmpty] using hc))⟩
  | arrow this =>
    exact ⟨fun p => balancedAt_of_quiet (quiet_discard (quiet_pure p this)) w (hb p),
      fun _ _ => by simp [Op.run, Exec.outcome, Exec.discard, arrow]⟩
  | mutate_deref this f =>
    have h := balancedAt_mutate_through_deref w this f (hb this)
    refine ⟨fun p => ?_, fun hc _ => h.2 (by simpa [Op.uncheckedOnEmpty] using hc)⟩
    by_cases hq : p = this
    · subst hq; exact h.1
    · exact balancedAt_of_quiet (quiet_mutate_through_deref f hq) w (hb p)
  | mutate_value this f =>
    have h := balancedAt_mutate_through_Value w this f (hb this)
    refine ⟨fun p => ?_, fun _ _ => h.2⟩
    by_cases hq : p = this
    · subst hq; exact h.1
    · exact balancedAt_of_quiet (quiet_mutate_through_Value f hq) w (hb p)

theorem balanced_empty : (World.empty T).Balanced := by
  intro p
  simp [World.BalancedAt, Optional.WF, World.empty]

theorem balanced_of_reachable (ops : HeldOps T Args) (w : World T) (hr : Reachable ops w) :
    w.Balanced := by
  induction hr with
  | start => exact balanced_empty
  | step c _ hp ih => exact (balanced_step ops _ c ih hp).1

/-- C14 (amended): the storage invariant.  In every state reachable from empty
memory by calls of the constructors (on storage holding no present `Optional`),
value assignment, `Optional` copy and move assignment, `Reset`, `Emplace` with any
arguments, the destructor and the accessors, states reached through an exception
of `T` included, for every object: the buffer holds a live `T` exactly when the
presence flag is set, and the constructions logged for its buffer exceed the
destructions by one if the flag is set and by none if it is clear.  Consequently
no call made in such a state uses a buffer without a live `T` as a `T` (to
destroy, assign or read it), with two exceptions: `Emplace` called with arguments
that refer to the value held by the `Optional` itself, and a use of the reference
returned by the unchecked `operator*` of an empty `Optional`. -/
theorem C14_storage_invariant (ops : HeldOps T Args) (w : World T) (hr : Reachable ops w) :
    (∀ p, (w.objs p).is_initialized_ = (w.objs p).data_.isSome ∧
      constructions p w.log =
        destructions p w.log + (if (w.objs p).is_initialized_ then 1 else 0)) ∧
    (∀ c : Op T Args, c.permitted w = true → c.uncheckedOnEmpty w = false →
      c.emplaceFromOwnValue = false → (c.run ops).outcome w ≠ .error .noLiveObject) :=
  ⟨balanced_of_reachable ops w hr,
    fun c hp hc ho => (balanced_step ops w c (balanced_of_reachable ops w hr) hp).2 hc ho⟩

/-- Witness of C14: the sample state is reached by two constructor calls; its
present object at address 0 has one construction and no destruction logged, and
`Emplace(7)` on it does not meet a dead buffer. -/
theorem C14_storage_invariant_witness :
    Reachable intOps World.sample ∧
    constructions 0 World.sample.log =
      destructions 0 World.sample.log + (if (World.sample.objs 0).is_initialized_ then 1 else 0) ∧
    (Emplace intOps 0 (.objects 7)).outcome World.sample ≠ .error .noLiveObject :=
  have hr : Reachable intOps World.sample :=
    Reachable.step (.ctor_default 1) (Reachable.step (.ctor_value 0 42) Reachable.start rfl) rfl
  ⟨hr, ((C14_storage_invariant intOps World.sample hr).1 0).2,
    (C14_storage_invariant intOps World.sample hr).2 (.emplace 0 (.objects 7)) rfl rfl rfl⟩

/-- Counterexample to C14 as stated: the state with one `Optional<std::string>`
holding "x" at address 0 is reachable by a constructor call, the flag of that
object is set, and the call `o.Emplace(*o)` on it is permitted; yet the call reads
the buffer when it holds no live `T`: `Reset()` has destroyed the value and cleared
the flag before `T(args...)` reads its argument. -/
theorem C14_emplace_reads_destroyed_counterexample :
    Reachable stringOps ((Optional_from_value stringOps 0 "x").after (World.empty String)) ∧
    (((Optional_from_value stringOps 0 "x").after (World.empty String)).objs 0).is_initialized_ =
      true ∧
    (Op.emplace 0 (.contained 0 id) : Op String String).permitted
      ((Optional_from_value stringOps 0 "x").after (World.empty String)) = true ∧
    ((Op.emplace 0 (.contained 0 id) : Op String String).run stringOps).outcome
      ((Optional_from_value stringOps 0 "x").after (World.empty String)) =
        .error .noLiveObject ∧
    (((Reset 0).after ((Optional_from_value stringOps 0 "x").after
      (World.empty String))).objs 0).is_initialized_ = false :=
  ⟨Reachable.step (.ctor_value 0 "x") Reachable.start rfl, rfl, rfl, rfl, rfl⟩

end gx
